import Mathlib

/-
Verification of the capability execution and orchestration engine
(single-intent dispatch and the multi-step strategy orchestrator).

The embedding models the TypeScript sources faithfully:
  * JavaScript values are the inductive `Value`; `Option Value` distinguishes
    an absent (undefined) property from an explicit null.
  * JavaScript objects / Maps are association lists with JS `Map.set` /
    object-spread semantics (`jsSet`, `mergeObj`).
  * Handlers and precondition checkers are opaque callables supplied by the
    host, modelled as pure functions into an outcome type that distinguishes
    normal completion, a thrown `Error`, a thrown non-`Error` value, and (for
    handlers) the timeout timer winning the race.  Wall-clock elapsed time is
    not modelled.
  * Host-dependent primitives (`Date` parsing, regular-expression tests) are
    a `Host` parameter.
  * Each engine-level execution also returns the list of handler invocations
    it performed (handler reference and parameter object); the strategy layer
    tags these events with the step index or with a rollback marker.  Erasing
    the trace component gives exactly the control flow of the source.
-/

namespace Aument

/-- JavaScript runtime values (dates kept abstract; numbers as integers,
which suffices for every property proved here). -/
inductive Value : Type where
  | vNull : Value
  | vStr : String → Value
  | vNum : Int → Value
  | vBool : Bool → Value
  | vArr : List Value → Value
  | vObj : List (String × Value) → Value
  | vDate : Value

/-- A JavaScript object: an association list from property name to value. -/
abbrev ObjMap : Type := List (String × Value)

/-- Association-list lookup, first match wins (JS property access). -/
def jsGet {κ α : Type} [DecidableEq κ] (m : List (κ × α)) (k : κ) : Option α :=
  match m with
  | [] => none
  | p :: rest => if p.1 = k then some p.2 else jsGet rest k

/-- JS `Map.set` / keyed update: the new binding replaces any old one. -/
def jsSet {κ α : Type} [DecidableEq κ] (m : List (κ × α)) (k : κ) (v : α) :
    List (κ × α) :=
  (k, v) :: m.filter (fun p => decide (p.1 ≠ k))

/-- JS `Map.delete`: remove a key. -/
def jsDelete {κ α : Type} [DecidableEq κ] (m : List (κ × α)) (k : κ) :
    List (κ × α) :=
  m.filter (fun p => decide (p.1 ≠ k))

/-- Object spread `{...a, ...b}`: keys of `b` override keys of `a`. -/
def mergeObj (a b : ObjMap) : ObjMap :=
  a.filter (fun p => (jsGet b p.1).isNone) ++ b

/-- JS truthiness of a value. -/
def jsTruthy : Value → Bool
  | .vNull => false
  | .vStr s => decide (s ≠ "")
  | .vNum n => decide (n ≠ 0)
  | .vBool b => b
  | .vArr _ => true
  | .vObj _ => true
  | .vDate => true

/-- Property access on an arbitrary value: only plain objects yield fields. -/
def getField (v : Value) (k : String) : Option Value :=
  match v with
  | .vObj fields => jsGet fields k
  | _ => none

/-- A value is absent in the JS sense when it is `undefined` (missing) or
`null`: the test `value === undefined || value === null` from the sources. -/
def isAbsent : Option Value → Bool
  | none => true
  | some .vNull => true
  | some _ => false

/-- Character-list substring scan used to model JS `String.includes`. -/
def charsInclude (needle : List Char) : List Char → Bool
  | [] => needle.isEmpty
  | c :: rest => needle.isPrefixOf (c :: rest) || charsInclude needle rest

/-- JS `s.includes(sub)`. -/
def jsIncludes (s sub : String) : Bool :=
  charsInclude sub.data s.data

/-- JS `x || dflt` applied to an optional string (`undefined` and the empty
string are falsy). -/
def jsOrElse (v : Option String) (dflt : String) : String :=
  match v with
  | none => dflt
  | some s => if s = "" then dflt else s

/-- Host-supplied primitives the validator delegates to: `new Date(s)`
parseability and `new RegExp(pattern).test(s)`. -/
structure Host : Type where
  dateParses : String → Bool
  regexTest : String → String → Bool

/-- Handler reference record (`schema/types/handler.ts`). -/
structure HandlerRef : Type where
  name : String
  handlerRef : String

/-- One enum constraint entry (`schema/types/validator.ts`). -/
structure EnumEntry : Type where
  value : String
  label : String

/-- Declared parameter constraints (`schema/types/validator.ts`). -/
structure Validator : Type where
  min : Option Int
  max : Option Int
  pattern : Option String
  enum : Option (List EnumEntry)

/-- A declared capability parameter (`schema/types/parameter.ts`).  The
declared type is kept as a string, exactly as the validator receives it. -/
structure Parameter : Type where
  name : String
  type : String
  isRequired : Bool
  description : String
  validator : Option Validator
  examples : Option (List Value)
  isSensitive : Option Bool
  collectionApproach : Option String

/-- A declared precondition (`schema/types/precondition.ts`). -/
structure Precondition : Type where
  checker : HandlerRef
  description : String
  errorMessage : String

/-- A declared side effect (`schema/types/entity.ts`); only the name is
consumed by the engine. -/
structure Entity : Type where
  name : String

/-- A capability as consumed by the engine (`schema/types/capability.ts`
plus the `undoCapabilityId` field the engine and validator read). -/
structure Capability : Type where
  id : String
  displayName : String
  description : String
  examples : Option (List String)
  handler : HandlerRef
  parameters : List Parameter
  preconditions : Option (List Precondition)
  sideEffects : Option (List Entity)
  undoCapabilityId : Option String

/-- Manifest metadata (`schema/types/manifest.ts`). -/
structure Metadata : Type where
  name : String
  description : String

/-- The capability manifest; `capabilities` is a JS record, an ordered
association list from record key to capability. -/
structure Manifest : Type where
  version : String
  metadata : Metadata
  capabilities : List (String × Capability)

/-- `ManifestResolver.getCapability`: record lookup by capability id. -/
def getCapability (manifest : Manifest) (capabilityId : String) :
    Option Capability :=
  jsGet manifest.capabilities capabilityId

/-- Truthiness of `capability.undoCapabilityId`: an empty string counts as
not declared (`if (!capability.undoCapabilityId)` in the sources). -/
def undoIdTruthy : Option String → Option String
  | none => none
  | some s => if s = "" then none else some s

/-- `Engine.getHandlerRef`: the handler reference of the first capability
value whose `id` field matches, or the empty string. -/
def getHandlerRef (capabilities : List (String × Capability)) (capId : String) :
    String :=
  (((capabilities.map Prod.snd).filter (fun cap => decide (cap.id = capId))).map
    (fun cap => cap.handler.handlerRef)).head?.getD ""

/-- Result of validating one parameter or a parameter list
(`validation/parameterValidator.ts`). -/
structure ParameterValidationResult : Type where
  isValid : Bool
  errors : List String

/-- `ParameterValidator.validateDateType`. -/
def validateDateType (host : Host) (value : Value) : Option String :=
  match value with
  | .vStr s => if host.dateParses s then none else some "Invalid date format"
  | .vDate => none
  | _ => some "Must be a date string or Date object"

/-- Predicate for the JS check
`typeof value === "object" && value !== null && !Array.isArray(value)`. -/
def isJsPlainObject : Value → Bool
  | .vObj _ => true
  | .vDate => true
  | _ => false

/-- `ParameterValidator.validateType`: match on the declared type name, with
no branch for `"file"` (or any other unlisted name), which therefore falls
through to the `Unknown type` default. -/
def validateType (host : Host) (type : String) (value : Value) :
    Option String :=
  if type = "string" then
    match value with | .vStr _ => none | _ => some "Must be a string"
  else if type = "number" then
    match value with | .vNum _ => none | _ => some "Must be a number"
  else if type = "boolean" then
    match value with | .vBool _ => none | _ => some "Must be a boolean"
  else if type = "array" then
    match value with | .vArr _ => none | _ => some "Must be an array"
  else if type = "object" then
    if isJsPlainObject value then none else some "Must be an object"
  else if type = "enum" then none
  else if type = "date" ∨ type = "time" ∨ type = "datetime" then
    validateDateType host value
  else if type = "any" then none
  else some ("Unknown type: " ++ type)

/-- `ParameterValidator.validateConstraints`: each constraint applies only
when present and only to values of the matching runtime type. -/
def validateConstraints (host : Host) (validator : Validator) (value : Value) :
    List String :=
  let minNumErr :=
    match validator.min, value with
    | some m, .vNum n =>
        if n < m then ["Must be at least " ++ toString m] else []
    | _, _ => []
  let maxNumErr :=
    match validator.max, value with
    | some m, .vNum n =>
        if m < n then ["Must be at most " ++ toString m] else []
    | _, _ => []
  let minStrErr :=
    match validator.min, value with
    | some m, .vStr s =>
        if (s.length : Int) < m then
          ["Must be at least " ++ toString m ++ " characters"]
        else []
    | _, _ => []
  let maxStrErr :=
    match validator.max, value with
    | some m, .vStr s =>
        if m < (s.length : Int) then
          ["Must be at most " ++ toString m ++ " characters"]
        else []
    | _, _ => []
  let patternErr :=
    match validator.pattern, value with
    | some pat, .vStr s =>
        if host.regexTest pat s then [] else ["Does not match required pattern"]
    | _, _ => []
  let enumErr :=
    match validator.enum with
    | some entries =>
        let validValues := entries.map (fun e => e.value)
        let isMember :=
          match value with
          | .vStr s => validValues.contains s
          | _ => false
        if isMember then []
        else ["Must be one of: " ++ String.intercalate ", " validValues]
    | none => []
  minNumErr ++ maxNumErr ++ minStrErr ++ maxStrErr ++ patternErr ++ enumErr

/-- `ParameterValidator.validate`: required check first (absent means
`undefined` or `null`), then the type check, then constraints, which are
skipped when the type check already failed. -/
def paramValidate (host : Host) (paramDef : Parameter) (value : Option Value) :
    ParameterValidationResult :=
  match value with
  | none =>
      if paramDef.isRequired then
        ⟨false, ["Parameter \"" ++ paramDef.name ++ "\" is required"]⟩
      else ⟨true, []⟩
  | some .vNull =>
      if paramDef.isRequired then
        ⟨false, ["Parameter \"" ++ paramDef.name ++ "\" is required"]⟩
      else ⟨true, []⟩
  | some v =>
      let typeErrors :=
        match validateType host paramDef.type v with
        | some e => [e]
        | none => []
      let errors :=
        typeErrors ++
          (match paramDef.validator with
           | some vd =>
               if typeErrors.isEmpty then validateConstraints host vd v else []
           | none => [])
      ⟨errors.isEmpty, errors⟩

/-- `ParameterValidator.validateAll`: validates every declared parameter and
concatenates all error messages, never short-circuiting. -/
def validateAll (host : Host) (paramDefs : List Parameter)
    (providedParams : ObjMap) : ParameterValidationResult :=
  let allErrors :=
    paramDefs.flatMap (fun paramDef =>
      (paramValidate host paramDef (jsGet providedParams paramDef.name)).errors)
  ⟨allErrors.isEmpty, allErrors⟩

/-- An intent: a capability id plus a parameter object (`types/intent.ts`). -/
structure Intent : Type where
  capabilityId : String
  parameters : ObjMap

/-- One strategy validation error (`types/strategyValidation.ts`); the step
index is `-1` for strategy-level failures. -/
structure StrategyValidationError : Type where
  message : String
  stepIndex : Int
  details : Option String

/-- Result of `StrategyValidator.validate`. -/
structure StrategyValidationResult : Type where
  isValid : Bool
  errors : List StrategyValidationError

/-- `StrategyValidator.validateIntent`: structural checks, then capability
resolution, then full parameter validation.  In the typed embedding the
intent is always an object and its parameter map always an object, so the
corresponding structural branches cannot fire; the falsy check on the
capability id remains (an empty id is rejected). -/
def validateIntentErrors (host : Host) (manifest : Manifest) (intent : Intent)
    (index : Int) : List StrategyValidationError :=
  if intent.capabilityId = "" then
    [⟨"Intent missing capabilityId", index, some "capabilityId"⟩]
  else
    match getCapability manifest intent.capabilityId with
    | none =>
        [⟨"Capability \"" ++ intent.capabilityId ++ "\" not found in manifest",
          index, some "capabilityId"⟩]
    | some capability =>
        let paramResult :=
          validateAll host capability.parameters intent.parameters
        if paramResult.isValid then []
        else paramResult.errors.map (fun e => ⟨e, index, some "parameters"⟩)

/-- `StrategyValidator.validate`: a strategy must be a non-empty sequence;
every step is validated and its errors tagged with the step index. -/
def strategyValidate (host : Host) (manifest : Manifest)
    (strategy : List Intent) : StrategyValidationResult :=
  if strategy.isEmpty then
    ⟨false, [⟨"Strategy cannot be empty", -1, none⟩]⟩
  else
    let errors :=
      strategy.enum.flatMap (fun p =>
        validateIntentErrors host manifest p.2 (Int.ofNat p.1))
    ⟨errors.isEmpty, errors⟩

/-- Outcome of invoking a host-supplied precondition checker: it may return
a boolean, throw an `Error`, or throw a non-`Error` value. -/
inductive CheckerOutcome : Type where
  | ret : Bool → CheckerOutcome
  | throwErr : String → CheckerOutcome
  | throwNonErr : CheckerOutcome

/-- A precondition checker callable. -/
abbrev CheckerFn : Type := ObjMap → CheckerOutcome

/-- Result of precondition evaluation (`types/execution.ts`). -/
structure FailedCondition : Type where
  description : String
  errorMessage : String

/-- `PreconditionResult` from `types/execution.ts`. -/
structure PreconditionResult : Type where
  passed : Bool
  failedCondition : Option FailedCondition

/-- `PreconditionChecker.checkOne`: an unresolved checker fails; a thrown
exception is caught and wrapped; a falsy return fails with the declared
description and error message. -/
def checkOne (checkers : List (String × CheckerFn)) (precondition : Precondition)
    (context : ObjMap) : PreconditionResult :=
  let checkerRef := precondition.checker.handlerRef
  match jsGet checkers checkerRef with
  | none =>
      ⟨false, some ⟨precondition.description,
        "Precondition checker \"" ++ checkerRef ++ "\" not found"⟩⟩
  | some checker =>
      match checker context with
      | .ret true => ⟨true, none⟩
      | .ret false =>
          ⟨false, some ⟨precondition.description, precondition.errorMessage⟩⟩
      | .throwErr m =>
          ⟨false, some ⟨precondition.description,
            "Precondition check failed: " ++ m⟩⟩
      | .throwNonErr =>
          ⟨false, some ⟨precondition.description,
            "Precondition check failed: Unknown error"⟩⟩

/-- Iteration core of `PreconditionChecker.checkAll`: declaration order,
stopping at the first failure. -/
def checkListLoop (checkers : List (String × CheckerFn)) (context : ObjMap) :
    List Precondition → PreconditionResult
  | [] => ⟨true, none⟩
  | precondition :: rest =>
      let result := checkOne checkers precondition context
      if result.passed then checkListLoop checkers context rest else result

/-- `PreconditionChecker.checkAll`: an absent or empty list passes
trivially. -/
def checkAll (checkers : List (String × CheckerFn))
    (preconditions : Option (List Precondition)) (context : ObjMap) :
    PreconditionResult :=
  match preconditions with
  | none => ⟨true, none⟩
  | some l => checkListLoop checkers context l

/-- Behaviour of one handler invocation: normal completion, a thrown
`Error`, a thrown non-`Error` value, or the timeout timer winning the
`Promise.race`. -/
inductive HandlerBehavior : Type where
  | completes : Value → HandlerBehavior
  | throwsError : String → HandlerBehavior
  | throwsNonError : HandlerBehavior
  | timesOut : HandlerBehavior

/-- A business handler callable. -/
abbrev HandlerFn : Type := ObjMap → HandlerBehavior

/-- The error payload of `HandlerExecutionResult` (`handlerExecutor.ts`);
the opaque `originalError` field is not modelled. -/
structure HandlerError : Type where
  message : String
  isTimeout : Bool

/-- `HandlerExecutionResult` (wall-clock `executionTime` not modelled). -/
structure HandlerExecutionResult : Type where
  success : Bool
  data : Option Value
  error : Option HandlerError

/-- The default timeout of `HandlerExecutor`. -/
def DEFAULT_TIMEOUT : Nat := 5000

/-- The message of the error the timeout timer rejects with. -/
def timeoutMessage (timeout : Nat) : String :=
  "Handler execution timeout after " ++ toString timeout ++ "ms"

/-- `HandlerExecutor.execute`: the caught error is classified as a timeout
exactly when it is an `Error` whose message contains the substring
`"timeout"`; a thrown non-`Error` value gets a generic message. -/
def handlerExecute (handler : HandlerFn) (parameters : ObjMap)
    (timeout : Nat) : HandlerExecutionResult :=
  match handler parameters with
  | .completes d => ⟨true, some d, none⟩
  | .throwsError m => ⟨false, none, some ⟨m, jsIncludes m "timeout"⟩⟩
  | .throwsNonError =>
      ⟨false, none, some ⟨"Unknown error during handler execution", false⟩⟩
  | .timesOut =>
      ⟨false, none, some ⟨timeoutMessage timeout,
        jsIncludes (timeoutMessage timeout) "timeout"⟩⟩

/-- An execution error (`types/execution.ts`); the taxonomy is kept as the
literal strings the sources use. -/
structure ExecError : Type where
  type : String
  message : String
  details : Option Value
  capabilityId : String

/-- The uniform result envelope (`types/execution.ts`); `suggestions` and
wall-clock `executionTime` are not modelled. -/
structure ExecutionResult : Type where
  success : Bool
  data : Option Value
  error : Option ExecError
  sideEffects : Option (List String)

/-- `ResultFormatter.extractSideEffects`. -/
def extractSideEffects (capability : Capability) : List String :=
  match capability.sideEffects with
  | none => []
  | some effects =>
      if effects.isEmpty then [] else effects.map (fun e => e.name)

/-- `ResultFormatter.formatSuccess`. -/
def formatSuccess (handlerResult : HandlerExecutionResult)
    (capability : Capability) : ExecutionResult :=
  ⟨true, handlerResult.data, none, some (extractSideEffects capability)⟩

/-- `ResultFormatter.formatError`. -/
def formatError (errorType : String) (message : String)
    (details : Option Value) (capabilityId : String) : ExecutionResult :=
  ⟨false, none, some ⟨errorType, message, details, capabilityId⟩, none⟩

/-- `ResultFormatter.formatHandlerError`: `TIMEOUT` when the executor
classified the failure as a timeout, `EXECUTION_ERROR` otherwise; the
`details := originalError` field is not modelled. -/
def formatHandlerError (handlerResult : HandlerExecutionResult)
    (capabilityId : String) : ExecutionResult :=
  let errorType :=
    if (handlerResult.error.map (fun e => e.isTimeout)).getD false then
      "TIMEOUT"
    else "EXECUTION_ERROR"
  let message :=
    jsOrElse (handlerResult.error.map (fun e => e.message))
      "Handler execution failed"
  ⟨false, none, some ⟨errorType, message, none, capabilityId⟩, none⟩

/-- `ResultFormatter.formatPreconditionFailure`. -/
def formatPreconditionFailure (errorMessage : String) (description : String)
    (capabilityId : String) : ExecutionResult :=
  ⟨false, none, some ⟨"PRECONDITION_FAILED", errorMessage,
    some (.vObj [("description", .vStr description)]), capabilityId⟩, none⟩

/-- `ResultFormatter.formatValidationError`. -/
def formatValidationError (message : String) (capabilityId : String) :
    ExecutionResult :=
  ⟨false, none, some ⟨"VALIDATION_ERROR", message, none, capabilityId⟩, none⟩

/-- The Execution Engine: the manifest plus the handler and checker
registries built at construction time. -/
structure Engine : Type where
  manifest : Manifest
  handlers : List (String × HandlerFn)
  checkers : List (String × CheckerFn)

/-- Per-call options of `Engine.execute` (`types/execution.ts`). -/
structure ExecOptions : Type where
  timeout : Option Nat
  context : Option ObjMap

/-- Steps 4-6 of the single-intent pipeline: resolve the handler, dispatch
through the bounded executor, shape the outcome.  Also returns the handler
invocations performed (handler reference and parameter object). -/
def engineDispatch (capability : Capability) (e : Engine) (intent : Intent)
    (options : ExecOptions) : ExecutionResult × List (String × ObjMap) :=
  let handlerRef := capability.handler.handlerRef
  match jsGet e.handlers handlerRef with
  | none =>
      (formatError "HANDLER_NOT_FOUND"
        ("Handler \"" ++ handlerRef ++ "\" not registered") none
        intent.capabilityId, [])
  | some handler =>
      let handlerResult :=
        handlerExecute handler intent.parameters
          (options.timeout.getD DEFAULT_TIMEOUT)
      if handlerResult.success then
        (formatSuccess handlerResult capability,
          [(handlerRef, intent.parameters)])
      else
        (formatHandlerError handlerResult intent.capabilityId,
          [(handlerRef, intent.parameters)])

/-- `Engine.execute`: validation, capability resolution, precondition
evaluation, then dispatch (`engineDispatch`). -/
def engineExecute (host : Host) (e : Engine) (intent : Intent)
    (options : ExecOptions) : ExecutionResult × List (String × ObjMap) :=
  let context := options.context.getD []
  let validationResult := strategyValidate host e.manifest [intent]
  if validationResult.isValid = false then
    (formatValidationError
      (((validationResult.errors.head?).map (fun e => e.message)).getD "")
      intent.capabilityId, [])
  else
    match getCapability e.manifest intent.capabilityId with
    | none =>
        (formatError "VALIDATION_ERROR"
          ("Capability \"" ++ intent.capabilityId ++ "\" not found") none
          intent.capabilityId, [])
    | some capability =>
        let preconditionResult :=
          checkAll e.checkers capability.preconditions context
        if preconditionResult.passed = false then
          match preconditionResult.failedCondition with
          | some failedCondition =>
              (formatPreconditionFailure failedCondition.errorMessage
                failedCondition.description intent.capabilityId, [])
          | none => engineDispatch capability e intent options
        else engineDispatch capability e intent options

/-- `HandlerRegistry.register`: rejects an empty handler reference (in the
typed embedding the reference is always a string and the handler always a
function, so only the emptiness check can fire). -/
def registryRegister (registry : List (String × HandlerFn))
    (handlerRef : String) (handler : HandlerFn) :
    Except String (List (String × HandlerFn)) :=
  if handlerRef = "" then
    .error "Handler reference must be a non-empty string"
  else .ok (jsSet registry handlerRef handler)

/-- `HandlerRegistry.registerMany`: register each entry in order, the first
thrown error propagating. -/
def registryRegisterMany (registry : List (String × HandlerFn))
    (handlers : List (String × HandlerFn)) :
    Except String (List (String × HandlerFn)) :=
  match handlers with
  | [] => .ok registry
  | (handlerRef, handler) :: rest => do
      let registry2 ← registryRegister registry handlerRef handler
      registryRegisterMany registry2 rest

/-- `PreconditionChecker.registerChecker` (same emptiness check). -/
def checkerRegister (checkers : List (String × CheckerFn))
    (checkerRef : String) (checker : CheckerFn) :
    Except String (List (String × CheckerFn)) :=
  if checkerRef = "" then
    .error "Checker reference must be a non-empty string"
  else .ok (jsSet checkers checkerRef checker)

/-- `PreconditionChecker.registerMany`. -/
def checkerRegisterMany (checkers : List (String × CheckerFn))
    (entries : List (String × CheckerFn)) :
    Except String (List (String × CheckerFn)) :=
  match entries with
  | [] => .ok checkers
  | (checkerRef, checker) :: rest => do
      let checkers2 ← checkerRegister checkers checkerRef checker
      checkerRegisterMany checkers2 rest

/-- `HandlerRegistry.has`. -/
def registryHas (registry : List (String × HandlerFn)) (handlerRef : String) :
    Bool :=
  (jsGet registry handlerRef).isSome

/-- The undo-side contribution of one capability to the missing-handler
list of `Engine.validateHandlerBindings`, as a function of the (truthiness
of the) declared undo-capability id. -/
def undoMissingOf (manifest : Manifest)
    (registry : List (String × HandlerFn)) : Option String → List String
  | none => []
  | some undoCapabilityId =>
      if registryHas registry
          (getHandlerRef manifest.capabilities undoCapabilityId) then []
      else [getHandlerRef manifest.capabilities undoCapabilityId]

/-- The list of missing handler references accumulated by
`Engine.validateHandlerBindings`: for each capability, its primary handler
reference if unregistered, then, when an undo-capability id is declared
(truthy), the handler reference resolved from it if unregistered. -/
def missingHandlerRefs (manifest : Manifest)
    (registry : List (String × HandlerFn)) : List String :=
  (manifest.capabilities.map Prod.snd).flatMap (fun capability =>
    (if registryHas registry capability.handler.handlerRef then []
     else [capability.handler.handlerRef]) ++
    undoMissingOf manifest registry
      (undoIdTruthy capability.undoCapabilityId))

/-- `Engine.validateHandlerBindings`: throws, naming the missing references,
when any handler binding is missing. -/
def validateHandlerBindings (manifest : Manifest)
    (registry : List (String × HandlerFn)) : Except String Unit :=
  let missingHandlers := missingHandlerRefs manifest registry
  if missingHandlers.isEmpty then .ok ()
  else
    .error ("Missing handler registrations: " ++
      String.intercalate ", " missingHandlers)

/-- The `Engine` constructor: register the supplied handlers and checkers,
then validate the handler bindings, failing before any intent can be
executed.  Structural validation of the manifest itself
(`manifestResolver.load`) is an external collaborator outside the modelled
scope: the engine consumes an already-validated manifest. -/
def engineNew (manifest : Manifest) (handlers : List (String × HandlerFn))
    (checkers : List (String × CheckerFn)) : Except String Engine := do
  let registry ← registryRegisterMany [] handlers
  let checkerRegistry ← checkerRegisterMany [] checkers
  let _ ← validateHandlerBindings manifest registry
  return ⟨manifest, registry, checkerRegistry⟩

/-- One parameter summary in the capability graph (`engine.ts`). -/
structure GraphParameter : Type where
  name : String
  description : String
  type : String
  isRequired : Bool
  examples : List Value

/-- One capability summary in the capability graph (`engine.ts`). -/
structure GraphCapability : Type where
  id : String
  displayName : String
  description : String
  examples : List String
  parameters : List GraphParameter

/-- The read-only capability graph (`engine.ts`). -/
structure CapabilityGraph : Type where
  appName : String
  appDescription : String
  capabilities : List GraphCapability

/-- The body of `Engine.getCapabilityGraph`, reading only the manifest. -/
def capabilityGraphOfManifest (manifest : Manifest) : CapabilityGraph :=
  ⟨manifest.metadata.name, manifest.metadata.description,
    (manifest.capabilities.map Prod.snd).map (fun cap =>
      ⟨cap.id, cap.displayName, cap.description, cap.examples.getD [],
        cap.parameters.map (fun p =>
          ⟨p.name, p.description, p.type, p.isRequired, p.examples.getD []⟩)⟩)⟩

/-- `Engine.getCapabilityGraph` as a call on the engine state: it reads the
manifest and returns the engine unchanged (the method performs no writes). -/
def engineGetCapabilityGraph (e : Engine) : CapabilityGraph × Engine :=
  (capabilityGraphOfManifest e.manifest, e)

/-- Strategy execution options (`types/strategy.ts`); the two flags are
read only for truthiness, so absent flags are modelled as `false`. -/
structure StrategyOptions : Type where
  timeout : Option Nat
  context : Option ObjMap
  transactional : Bool
  continueOnError : Bool

/-- The strategy-level error record (`types/strategy.ts`). -/
structure StrategyError : Type where
  code : String
  message : String
  stepIndex : Option Nat

/-- A missing on-demand parameter descriptor (`types/strategy.ts`). -/
structure ParameterRequest : Type where
  capabilityId : String
  parameter : String
  description : String
  type : String
  isSensitive : Bool

/-- The strategy result envelope (`types/strategy.ts`); fields the sources
leave absent are `none` / `false` here. -/
structure StrategyResult : Type where
  success : Bool
  results : List ExecutionResult
  error : Option StrategyError
  paused : Bool
  requiredInputs : Option (List ParameterRequest)
  resumeToken : Option String
  completedSteps : Nat
  rolledBack : Bool
  rollbackErrors : Option (List String)

/-- One entry of the executed-step ledger (`types/strategy.ts`). -/
structure ExecutedStep : Type where
  intent : Intent
  result : ExecutionResult
  capability : Capability

/-- The mutable execution state of one strategy run (`types/strategy.ts`);
`collectedParameters` is a JS `Map` from step index to parameter object. -/
structure ExecutionState : Type where
  strategy : List Intent
  currentIndex : Nat
  results : List ExecutionResult
  accumulatedContext : ObjMap
  collectedParameters : List (Nat × ObjMap)
  executedSteps : List ExecutedStep
  options : StrategyOptions

/-- The parked-state table `pausedExecutions`, keyed by resume token. -/
abbrev PausedMap : Type := List (String × ExecutionState)

/-- A traced effect of a strategy run: a main-loop handler dispatch tagged
with its step index, or a rollback (undo) dispatch. -/
inductive TraceEv : Type where
  | step : Nat → String → ObjMap → TraceEv
  | undo : String → ObjMap → TraceEv

/-- `StrategyExecutor.findMissingOnDemandParams`: the required on-demand
parameters not satisfied (present and non-null) by the union of provided
and previously collected values. -/
def findMissingOnDemandParams (capability : Capability)
    (providedParams : ObjMap) (collectedParams : Option ObjMap) :
    List ParameterRequest :=
  let allProvidedParams := mergeObj providedParams (collectedParams.getD [])
  capability.parameters.filterMap (fun param =>
    if param.collectionApproach = some "on-demand" ∧ param.isRequired then
      if isAbsent (jsGet allProvidedParams param.name) then
        some ⟨capability.id, param.name, param.description, param.type,
          param.isSensitive.getD false⟩
      else none
    else none)

/-- `StrategyExecutor.mergeParameters`: collected values overwrite
identically-named provided ones; an absent or empty collected map leaves
the intent untouched. -/
def mergeParameters (intent : Intent) (collectedParams : Option ObjMap) :
    Intent :=
  match collectedParams with
  | none => intent
  | some collected =>
      if collected.isEmpty then intent
      else ⟨intent.capabilityId, mergeObj intent.parameters collected⟩

/-- `StrategyExecutor.pauseForCollection`: park the state under the freshly
minted token and return a paused result. -/
def pauseForCollection (resumeToken : String) (state : ExecutionState)
    (requiredInputs : List ParameterRequest) (pausedExecutions : PausedMap) :
    StrategyResult × PausedMap :=
  (⟨false, state.results, none, true, some requiredInputs, some resumeToken,
    state.results.length, false, none⟩,
   jsSet pausedExecutions resumeToken state)

/-- `StrategyExecutor.isNonCriticalError`. -/
def isNonCriticalError (result : ExecutionResult) : Bool :=
  match result.error with
  | none => false
  | some err => ["PRECONDITION_FAILED", "VALIDATION_WARNING"].contains err.type

/-- The reverse walk of `StrategyExecutor.handleFailureWithRollback`, taken
over the ledger already reversed (most recently completed step first): a
step without a truthy undo-capability id records an error and continues; a
step with one executes the undo intent (that id with the original step's
parameters) through the engine and stops the walk on failure.  Returns the
rollback errors and the undo dispatches performed. -/
def rollbackWalk (host : Host) (e : Engine) (accumulatedContext : ObjMap) :
    List ExecutedStep → List String × List TraceEv
  | [] => ([], [])
  | step :: older =>
      match undoIdTruthy step.capability.undoCapabilityId with
      | none =>
          let w := rollbackWalk host e accumulatedContext older
          (("Cannot undo \"" ++ step.capability.id ++
            "\" - no undoHandler defined") :: w.1, w.2)
      | some undoCapabilityId =>
          let undoIntent : Intent := ⟨undoCapabilityId, step.intent.parameters⟩
          let ur :=
            engineExecute host e undoIntent ⟨none, some accumulatedContext⟩
          let undoEvs := ur.2.map (fun p => TraceEv.undo p.1 p.2)
          if ur.1.success then
            let w := rollbackWalk host e accumulatedContext older
            (w.1, undoEvs ++ w.2)
          else
            (["Failed to undo \"" ++ step.capability.id ++ "\": " ++
              jsOrElse (ur.1.error.map (fun er => er.message))
                "Unknown error"], undoEvs)

/-- `StrategyExecutor.handleFailureWithRollback`: the failure result always
carries the triggering error; rollback runs only when the run is
transactional and the ledger is non-empty, walking it in reverse. -/
def handleFailureWithRollback (host : Host) (e : Engine)
    (state : ExecutionState) (code : String) (message : String) :
    StrategyResult × List TraceEv :=
  let completedSteps := (state.results.filter (fun r => r.success)).length
  if state.options.transactional = false ∨ state.executedSteps.isEmpty then
    (⟨false, state.results, some ⟨code, message, some state.currentIndex⟩,
      false, none, none, completedSteps, false, none⟩, [])
  else
    let w :=
      rollbackWalk host e state.accumulatedContext state.executedSteps.reverse
    (⟨false, state.results, some ⟨code, message, some state.currentIndex⟩,
      false, none, none, completedSteps, true, some w.1⟩, w.2)

/-- Folding a successful step's result payload into the accumulated shared
context: `{...ctx, ...(result.data as any).data}` guarded by the truthiness
of `result.data`.  Spreading a value whose `data` property is not a plain
object adds no string-keyed properties (the JS corner of spreading a
string's indices is not modelled; no manifest here produces it). -/
def foldResultData (accumulatedContext : ObjMap) (data : Option Value) :
    ObjMap :=
  match data with
  | none => accumulatedContext
  | some d =>
      if jsTruthy d then
        match getField d "data" with
        | some (.vObj inner) => mergeObj accumulatedContext inner
        | _ => accumulatedContext
      else accumulatedContext

/-- The terminal success result of the main loop. -/
def strategySuccessResult (state : ExecutionState) : StrategyResult :=
  ⟨true, state.results, none, false, none, none, state.results.length,
    false, none⟩

/-- The main loop of `StrategyExecutor.executeFromState`, with the loop
expressed by fuel (the wrapper supplies `strategy.length - currentIndex`,
and every iteration either returns or advances `currentIndex`, so the
zero-fuel branch is only reached when the index has passed the end). -/
def execLoop (host : Host) (e : Engine) (freshToken : String)
    (pausedExecutions : PausedMap) :
    Nat → ExecutionState → StrategyResult × List TraceEv × PausedMap
  | 0, state => (strategySuccessResult state, [], pausedExecutions)
  | fuel + 1, state =>
      if h : state.currentIndex < state.strategy.length then
        let intent := state.strategy.get ⟨state.currentIndex, h⟩
        match getCapability e.manifest intent.capabilityId with
        | none =>
            let f :=
              handleFailureWithRollback host e state "CAPABILITY_NOT_FOUND"
                ("Capability \"" ++ intent.capabilityId ++ "\" not found")
            (f.1, f.2, pausedExecutions)
        | some capability =>
            let collected := jsGet state.collectedParameters state.currentIndex
            let missingParams :=
              findMissingOnDemandParams capability intent.parameters collected
            if missingParams.isEmpty = false then
              let pc :=
                pauseForCollection freshToken state missingParams
                  pausedExecutions
              (pc.1, [], pc.2)
            else
              let mergedIntent := mergeParameters intent collected
              let er :=
                engineExecute host e mergedIntent
                  ⟨state.options.timeout, some state.accumulatedContext⟩
              let stepEvs :=
                er.2.map (fun p => TraceEv.step state.currentIndex p.1 p.2)
              let state1 :=
                { state with results := state.results ++ [er.1] }
              if er.1.success = false then
                if state.options.continueOnError ∧ isNonCriticalError er.1
                then
                  let k :=
                    execLoop host e freshToken pausedExecutions fuel
                      { state1 with currentIndex := state1.currentIndex + 1 }
                  (k.1, stepEvs ++ k.2.1, k.2.2)
                else
                  let f :=
                    handleFailureWithRollback host e state1
                      (jsOrElse (er.1.error.map (fun x => x.type))
                        "EXECUTION_ERROR")
                      (jsOrElse (er.1.error.map (fun x => x.message))
                        "Intent execution failed")
                  (f.1, stepEvs ++ f.2, pausedExecutions)
              else
                let state2 :=
                  { state1 with
                    executedSteps :=
                      state1.executedSteps ++
                        [⟨mergedIntent, er.1, capability⟩],
                    accumulatedContext :=
                      foldResultData state.accumulatedContext er.1.data,
                    currentIndex := state1.currentIndex + 1 }
                let k :=
                  execLoop host e freshToken pausedExecutions fuel state2
                (k.1, stepEvs ++ k.2.1, k.2.2)
      else (strategySuccessResult state, [], pausedExecutions)

/-- `StrategyExecutor.executeFromState`. -/
def executeFromState (host : Host) (e : Engine) (freshToken : String)
    (pausedExecutions : PausedMap) (state : ExecutionState) :
    StrategyResult × List TraceEv × PausedMap :=
  execLoop host e freshToken pausedExecutions
    (state.strategy.length - state.currentIndex) state

/-- `StrategyExecutor.executeStrategy`: fresh state at step 0. -/
def executeStrategy (host : Host) (e : Engine) (freshToken : String)
    (pausedExecutions : PausedMap) (strategy : List Intent)
    (options : StrategyOptions) : StrategyResult × List TraceEv × PausedMap :=
  executeFromState host e freshToken pausedExecutions
    ⟨strategy, 0, [], options.context.getD [], [], [], options⟩

/-- The INVALID_RESUME_TOKEN result of `StrategyExecutor.resumeStrategy`. -/
def invalidResumeTokenResult : StrategyResult :=
  ⟨false, [], some ⟨"INVALID_RESUME_TOKEN",
    "Resume token not found or expired", none⟩, false, none, none, 0,
    false, none⟩

/-- `StrategyExecutor.resumeStrategy`: a miss returns the invalid-token
result and leaves the table untouched; a hit stores (`Map.set`, i.e.
replaces) the caller-supplied values as the collected entry for the parked
step index, deletes the token, and continues from the same index. -/
def resumeStrategy (host : Host) (e : Engine) (freshToken : String)
    (pausedExecutions : PausedMap) (resumeToken : String)
    (additionalParams : ObjMap) : StrategyResult × List TraceEv × PausedMap :=
  match jsGet pausedExecutions resumeToken with
  | none => (invalidResumeTokenResult, [], pausedExecutions)
  | some state =>
      let state2 :=
        { state with
          collectedParameters :=
            jsSet state.collectedParameters state.currentIndex
              additionalParams }
      let paused2 := jsDelete pausedExecutions resumeToken
      executeFromState host e freshToken paused2 state2

/-! Helper lemmas about the JS-style maps and the substring scan. -/

theorem jsGet_jsSet_self {κ α : Type} [DecidableEq κ] (m : List (κ × α))
    (k : κ) (v : α) : jsGet (jsSet m k v) k = some v := by
  simp [jsSet, jsGet]

theorem jsGet_jsDelete_self {κ α : Type} [DecidableEq κ] (m : List (κ × α))
    (k : κ) : jsGet (jsDelete m k) k = none := by
  induction m with
  | nil => rfl
  | cons p rest ih =>
      simp only [jsDelete, List.filter_cons] at ih ⊢
      by_cases hp : p.1 = k
      · simpa [hp] using ih
      · simpa [jsGet, hp] using ih

theorem jsGet_jsDelete_ne {κ α : Type} [DecidableEq κ] (m : List (κ × α))
    (k k' : κ) (h : k' ≠ k) : jsGet (jsDelete m k) k' = jsGet m k' := by
  induction m with
  | nil => rfl
  | cons p rest ih =>
      simp only [jsDelete, List.filter_cons] at ih ⊢
      simp only [decide_not] at ih
      by_cases hp : p.1 = k
      · simp [jsGet, hp, ih, show ¬ k = k' from fun hh => h hh.symm]
      · by_cases hk' : p.1 = k'
        · simp [jsGet, hp, hk', show ¬ k' = k from h]
        · simp [jsGet, hp, hk', ih]

theorem jsGet_jsSet_ne {κ α : Type} [DecidableEq κ] (m : List (κ × α))
    (k k' : κ) (v : α) (h : k' ≠ k) :
    jsGet (jsSet m k v) k' = jsGet m k' := by
  have hkk' : ¬ k = k' := fun hh => h hh.symm
  simp only [jsSet, jsGet, hkk', if_false]
  exact jsGet_jsDelete_ne m k k' h

theorem charsInclude_append_right (needle l1 l2 : List Char)
    (h : charsInclude needle l2 = true) :
    charsInclude needle (l1 ++ l2) = true := by
  induction l1 with
  | nil => simpa using h
  | cons c rest ih =>
      simp only [List.cons_append, charsInclude, Bool.or_eq_true]
      exact Or.inr ih

theorem jsIncludes_append_right (a b sub : String)
    (h : jsIncludes b sub = true) : jsIncludes (a ++ b) sub = true := by
  unfold jsIncludes at *
  rw [String.data_append]
  exact charsInclude_append_right _ _ _ h

theorem flatMap_ne_nil_of_mem {α β : Type} (l : List α) (f : α → List β)
    (x : α) (hx : x ∈ l) (hf : f x ≠ []) : l.flatMap f ≠ [] := by
  obtain ⟨b, hb⟩ := List.exists_mem_of_ne_nil _ hf
  have : b ∈ l.flatMap f := List.mem_flatMap.mpr ⟨x, hx, hb⟩
  exact fun hnil => by simp [hnil] at this

theorem validateType_file (host : Host) (v : Value) :
    validateType host "file" v = some "Unknown type: file" := by
  simp [validateType]

theorem paramValidate_file_nonnull (host : Host) (p : Parameter)
    (hty : p.type = "file") (v : Value) (hv : v ≠ .vNull) :
    paramValidate host p (some v) = ⟨false, ["Unknown type: file"]⟩ := by
  cases v <;>
    first
    | exact absurd rfl hv
    | (cases hval : p.validator <;>
        simp [paramValidate, hty, validateType_file, hval])

theorem paramValidate_file_required_errors_ne_nil (host : Host)
    (p : Parameter) (hty : p.type = "file") (hreq : p.isRequired = true)
    (value : Option Value) : (paramValidate host p value).errors ≠ [] := by
  match value with
  | none => simp [paramValidate, hreq]
  | some .vNull => simp [paramValidate, hreq]
  | some (.vStr s) =>
      rw [paramValidate_file_nonnull host p hty _ (by simp)]; simp
  | some (.vNum n) =>
      rw [paramValidate_file_nonnull host p hty _ (by simp)]; simp
  | some (.vBool b) =>
      rw [paramValidate_file_nonnull host p hty _ (by simp)]; simp
  | some (.vArr l) =>
      rw [paramValidate_file_nonnull host p hty _ (by simp)]; simp
  | some (.vObj f) =>
      rw [paramValidate_file_nonnull host p hty _ (by simp)]; simp
  | some .vDate =>
      rw [paramValidate_file_nonnull host p hty _ (by simp)]; simp

theorem validateAll_invalid_of_param_errors (host : Host)
    (paramDefs : List Parameter) (provided : ObjMap) (p : Parameter)
    (hp : p ∈ paramDefs)
    (he : (paramValidate host p (jsGet provided p.name)).errors ≠ []) :
    (validateAll host paramDefs provided).isValid = false ∧
    (validateAll host paramDefs provided).errors ≠ [] := by
  have hne :
      (paramDefs.flatMap (fun paramDef =>
        (paramValidate host paramDef (jsGet provided paramDef.name)).errors))
        ≠ [] :=
    flatMap_ne_nil_of_mem _ _ p hp he
  constructor
  · simp [validateAll, List.isEmpty_iff, hne]
  · simpa [validateAll] using hne

theorem engineExecute_validation_error_of_invalid (host : Host) (e : Engine)
    (intent : Intent) (opts : ExecOptions)
    (h : (strategyValidate host e.manifest [intent]).isValid = false) :
    engineExecute host e intent opts =
      (formatValidationError
        ((((strategyValidate host e.manifest [intent]).errors.head?).map
          (fun er => er.message)).getD "") intent.capabilityId, []) := by
  rw [engineExecute]
  simp only [h, if_true]

/-- Claim C9: a parameter whose declared type is `"file"` (a type the
parameter model admits) fails validation with an "Unknown type" error on
every provided non-null value, because `validateType` has no branch for
`"file"`; hence a required file-typed parameter never passes validation and
any intent against a capability declaring one always yields
VALIDATION_ERROR from dispatch. -/
theorem file_type_parameter_never_validates (host : Host) (p : Parameter)
    (hty : p.type = "file") :
    (∀ v : Value, v ≠ .vNull →
      paramValidate host p (some v) = ⟨false, ["Unknown type: file"]⟩) ∧
    (p.isRequired = true →
      ∀ value : Option Value, (paramValidate host p value).isValid = false) ∧
    (∀ (e : Engine) (intent : Intent) (opts : ExecOptions) (cap : Capability),
      intent.capabilityId ≠ "" →
      getCapability e.manifest intent.capabilityId = some cap →
      p ∈ cap.parameters → p.isRequired = true →
      (engineExecute host e intent opts).1.success = false ∧
      ((engineExecute host e intent opts).1.error.map (fun er => er.type)) =
        some "VALIDATION_ERROR") := by
  refine ⟨fun v hv => paramValidate_file_nonnull host p hty v hv,
    fun hreq value => ?_, fun e intent opts cap hid hcap hmem hreq => ?_⟩
  · have := paramValidate_file_required_errors_ne_nil host p hty hreq value
    rcases hpv : paramValidate host p value with ⟨iv, errs⟩
    rcases errs with _ | ⟨a, rest⟩
    · rw [hpv] at this; simp at this
    · have : iv = (List.cons a rest).isEmpty := by
        have := congrArg ParameterValidationResult.isValid hpv
        have h2 := congrArg ParameterValidationResult.errors hpv
        -- derive from the shape of paramValidate: isValid mirrors emptiness
        revert this h2
        cases value with
        | none =>
            by_cases hr : p.isRequired = true <;>
              simp [paramValidate, hr] <;> intro h1 h2 <;> simp_all
        | some v =>
            cases v <;>
              first
              | (by_cases hr : p.isRequired = true <;>
                  simp [paramValidate, hr] <;> intro h1 h2 <;> simp_all)
              | (simp [paramValidate]
                 intro h1 h2
                 simp_all)
      simp [this]
  · have hperr :
        (paramValidate host p (jsGet intent.parameters p.name)).errors ≠ [] :=
      paramValidate_file_required_errors_ne_nil host p hty hreq _
    have hva := validateAll_invalid_of_param_errors host cap.parameters
      intent.parameters p hmem hperr
    have hvi : validateIntentErrors host e.manifest intent 0 ≠ [] := by
      rw [validateIntentErrors, if_neg hid, hcap]
      simp only [hva.1, if_false]
      simp [hva.2]
    have hsv : (strategyValidate host e.manifest [intent]).isValid = false := by
      rw [strategyValidate]
      simp only [List.isEmpty_cons, if_false]
      have : ([intent].enum.flatMap (fun p =>
          validateIntentErrors host e.manifest p.2 (Int.ofNat p.1))) =
          validateIntentErrors host e.manifest intent 0 := by
        simp [List.enum]
      simp [this, List.isEmpty_iff, hvi]
    rw [engineExecute_validation_error_of_invalid host e intent opts hsv]
    exact ⟨rfl, rfl⟩

/-- A host whose date parser accepts everything and whose regex tester
always matches; the claims below never depend on these primitives. -/
def anyHost : Host := ⟨fun _ => true, fun _ _ => true⟩

/-- A required parameter of declared type `"file"`. -/
def fileParam : Parameter :=
  ⟨"doc", "file", true, "a file to upload", none, none, none, none⟩

/-- A capability declaring the file parameter. -/
def fileCap : Capability :=
  ⟨"upload", "Upload", "uploads a document", none, ⟨"upload", "h.upload"⟩,
    [fileParam], none, none, none⟩

/-- A one-capability manifest for the file-parameter scenario. -/
def fileManifest : Manifest :=
  ⟨"1.0.0", ⟨"Demo", "demo application"⟩, [("upload", fileCap)]⟩

/-- A handler that completes immediately. -/
def fileHandler : HandlerFn := fun _ => .completes (.vObj [])

/-- The engine for the file-parameter scenario. -/
def fileEngine : Engine := ⟨fileManifest, [("h.upload", fileHandler)], []⟩

/-- Witness for C9 at a concrete input: supplying a string for the required
file parameter fails with the Unknown-type error, and dispatch yields
VALIDATION_ERROR. -/
theorem file_type_parameter_never_validates_witness :
    paramValidate anyHost fileParam (some (.vStr "x")) =
      ⟨false, ["Unknown type: file"]⟩ ∧
    (engineExecute anyHost fileEngine ⟨"upload", [("doc", .vStr "x")]⟩
      ⟨none, none⟩).1.success = false ∧
    ((engineExecute anyHost fileEngine ⟨"upload", [("doc", .vStr "x")]⟩
      ⟨none, none⟩).1.error.map (fun er => er.type)) =
      some "VALIDATION_ERROR" := by
  have h := file_type_parameter_never_validates anyHost fileParam rfl
  have h3 := h.2.2 fileEngine ⟨"upload", [("doc", .vStr "x")]⟩ ⟨none, none⟩
    fileCap (by decide) rfl (List.mem_singleton.mpr rfl) rfl
  exact ⟨h.1 (.vStr "x") (fun hh => Value.noConfusion hh), h3.1, h3.2⟩

/-- Claim C8: `getCapabilityGraph` is pure and deterministic: its value is
computed from the manifest alone, calling it leaves the engine (and hence
the manifest) unchanged, and two calls on engines with the same manifest
return equal graphs. -/
theorem capability_graph_pure (e1 e2 : Engine)
    (h : e1.manifest = e2.manifest) :
    (engineGetCapabilityGraph e1).1 = capabilityGraphOfManifest e1.manifest ∧
    (engineGetCapabilityGraph e1).2 = e1 ∧
    (engineGetCapabilityGraph e2).2 = e2 ∧
    (engineGetCapabilityGraph e1).1 = (engineGetCapabilityGraph e2).1 := by
  refine ⟨rfl, rfl, rfl, ?_⟩
  simp only [engineGetCapabilityGraph, h]

/-- A second engine over the file-scenario manifest with different
registries, for the purity witness. -/
def fileEngineAlt : Engine :=
  ⟨fileManifest, [("h.upload", fileHandler), ("h.other", fileHandler)],
    [("c.check", fun _ => .ret true)]⟩

/-- Witness for C8: two engines sharing a manifest but with different
registries return equal graphs, and the call mutates neither engine. -/
theorem capability_graph_pure_witness :
    (engineGetCapabilityGraph fileEngine).1 =
      capabilityGraphOfManifest fileEngine.manifest ∧
    (engineGetCapabilityGraph fileEngine).2 = fileEngine ∧
    (engineGetCapabilityGraph fileEngineAlt).2 = fileEngineAlt ∧
    (engineGetCapabilityGraph fileEngine).1 =
      (engineGetCapabilityGraph fileEngineAlt).1 :=
  capability_graph_pure fileEngine fileEngineAlt rfl

theorem checkListLoop_append_passed (checkers : List (String × CheckerFn))
    (ctx : ObjMap) (l1 rest : List Precondition)
    (h : ∀ q ∈ l1, (checkOne checkers q ctx).passed = true) :
    checkListLoop checkers ctx (l1 ++ rest) =
      checkListLoop checkers ctx rest := by
  induction l1 with
  | nil => rfl
  | cons q l ih =>
      simp only [List.cons_append, checkListLoop]
      rw [h q (by simp)]
      simp only [if_true]
      exact ih (fun q hq => h q (by simp [hq]))

theorem checkOne_failed_condition (checkers : List (String × CheckerFn))
    (p : Precondition) (ctx : ObjMap)
    (h : (checkOne checkers p ctx).passed = false) :
    ∃ fc, (checkOne checkers p ctx).failedCondition = some fc ∧
      fc.description = p.description := by
  cases hc : jsGet checkers p.checker.handlerRef with
  | none =>
      exact ⟨⟨p.description,
        "Precondition checker \"" ++ p.checker.handlerRef ++ "\" not found"⟩,
        by simp [checkOne, hc], rfl⟩
  | some f =>
      cases hf : f ctx with
      | ret b =>
          cases b with
          | true => exact absurd h (by simp [checkOne, hc, hf])
          | false =>
              exact ⟨⟨p.description, p.errorMessage⟩,
                by simp [checkOne, hc, hf], rfl⟩
      | throwErr m =>
          exact ⟨⟨p.description, "Precondition check failed: " ++ m⟩,
            by simp [checkOne, hc, hf], rfl⟩
      | throwNonErr =>
          exact ⟨⟨p.description, "Precondition check failed: Unknown error"⟩,
            by simp [checkOne, hc, hf], rfl⟩

/-- Claim C6: with `N` ordered preconditions whose first failure is check
`k` (here the split `l1 ++ p :: l2` with every element of `l1` passing and
`p` failing), `checkAll` returns check `p`'s own result — the tail `l2` is
universally quantified and absent from the conclusion, so the later checks
are never invoked — carrying the failing check's description (and, when the
checker itself returned false, its declared error message); an empty or
absent precondition list passes trivially. -/
theorem preconditions_fail_fast (checkers : List (String × CheckerFn))
    (ctx : ObjMap) (l1 : List Precondition) (p : Precondition)
    (l2 : List Precondition)
    (hpass : ∀ q ∈ l1, (checkOne checkers q ctx).passed = true)
    (hfail : (checkOne checkers p ctx).passed = false) :
    checkAll checkers (some (l1 ++ p :: l2)) ctx = checkOne checkers p ctx ∧
    (∃ fc, (checkOne checkers p ctx).failedCondition = some fc ∧
      fc.description = p.description) ∧
    (∀ f, jsGet checkers p.checker.handlerRef = some f → f ctx = .ret false →
      checkOne checkers p ctx =
        ⟨false, some ⟨p.description, p.errorMessage⟩⟩) ∧
    checkAll checkers none ctx = ⟨true, none⟩ ∧
    checkAll checkers (some []) ctx = ⟨true, none⟩ := by
  refine ⟨?_, checkOne_failed_condition checkers p ctx hfail,
    fun f hcf hff => by simp [checkOne, hcf, hff], rfl, rfl⟩
  rw [checkAll, checkListLoop_append_passed checkers ctx l1 _ hpass]
  simp [checkListLoop, hfail]

/-- Checkers for the fail-fast witness: the first passes, the second
returns false, the third passes (and must never be consulted). -/
def witnessCheckers : List (String × CheckerFn) :=
  [("c.one", fun _ => .ret true), ("c.two", fun _ => .ret false),
   ("c.three", fun _ => .ret true)]

/-- First precondition of the fail-fast witness. -/
def preOne : Precondition :=
  ⟨⟨"one", "c.one"⟩, "first gate", "first gate failed"⟩

/-- Second (failing) precondition of the fail-fast witness. -/
def preTwo : Precondition :=
  ⟨⟨"two", "c.two"⟩, "second gate", "second gate failed"⟩

/-- Third precondition of the fail-fast witness. -/
def preThree : Precondition :=
  ⟨⟨"three", "c.three"⟩, "third gate", "third gate failed"⟩

/-- Witness for C6 at a concrete input: the second check fails, `checkAll`
reports its description and declared error message. -/
theorem preconditions_fail_fast_witness :
    checkAll witnessCheckers (some [preOne, preTwo, preThree]) [] =
      checkOne witnessCheckers preTwo [] ∧
    checkOne witnessCheckers preTwo [] =
      ⟨false, some ⟨"second gate", "second gate failed"⟩⟩ := by
  have h := preconditions_fail_fast witnessCheckers [] [preOne] preTwo
    [preThree] (fun q hq => by rw [List.mem_singleton.mp hq]; rfl) rfl
  exact ⟨h.1, h.2.2.1 (fun _ => .ret false) rfl rfl⟩

/-- A handler that throws an `Error` whose message happens to contain the
substring "timeout" without any timer having fired. -/
def timeoutWordHandler : HandlerFn :=
  fun _ => .throwsError "connection timeout while contacting gateway"

/-- Counterexample to C5 as stated: a handler that throws (rather than
timing out) an `Error` whose message contains "timeout" is classified as a
timeout, and the result shaper maps it to TIMEOUT, not EXECUTION_ERROR. -/
theorem thrown_error_with_timeout_word_counterexample :
    (handlerExecute timeoutWordHandler [] 5000).success = false ∧
    (handlerExecute timeoutWordHandler [] 5000).error =
      some ⟨"connection timeout while contacting gateway", true⟩ ∧
    (formatHandlerError (handlerExecute timeoutWordHandler [] 5000)
      "cap").error =
      some ⟨"TIMEOUT", "connection timeout while contacting gateway", none,
        "cap"⟩ := by
  refine ⟨rfl, ?_, ?_⟩ <;>
    simp [handlerExecute, timeoutWordHandler, formatHandlerError, jsOrElse,
      show jsIncludes "connection timeout while contacting gateway" "timeout"
        = true from by decide]

/-- Claim C5 (amended): a handler invocation that throws or rejects returns
a failure whose message is the thrown `Error`'s message, or the generic
unknown-error string when the thrown value is not an `Error`; it is
classified as an execution error — and shaped to EXECUTION_ERROR — unless
the thrown `Error`'s message contains the substring "timeout", in which
case it is classified and shaped as TIMEOUT. -/
theorem thrown_error_classification (handler : HandlerFn) (params : ObjMap)
    (timeout : Nat) :
    (∀ m, handler params = .throwsError m → m ≠ "" →
      handlerExecute handler params timeout =
        ⟨false, none, some ⟨m, jsIncludes m "timeout"⟩⟩ ∧
      (formatHandlerError (handlerExecute handler params timeout)
          "cap").error =
        some ⟨if jsIncludes m "timeout" then "TIMEOUT" else "EXECUTION_ERROR",
          m, none, "cap"⟩) ∧
    (handler params = .throwsNonError →
      handlerExecute handler params timeout =
        ⟨false, none, some ⟨"Unknown error during handler execution",
          false⟩⟩ ∧
      (formatHandlerError (handlerExecute handler params timeout)
          "cap").error =
        some ⟨"EXECUTION_ERROR", "Unknown error during handler execution",
          none, "cap"⟩) := by
  constructor
  · intro m hm hne
    constructor
    · simp [handlerExecute, hm]
    · by_cases ht : jsIncludes m "timeout" = true
      · simp [handlerExecute, hm, formatHandlerError, jsOrElse, ht, hne]
      · rw [Bool.not_eq_true] at ht
        simp [handlerExecute, hm, formatHandlerError, jsOrElse, ht, hne]
  · intro hm
    constructor
    · simp [handlerExecute, hm]
    · simp [handlerExecute, hm, formatHandlerError, jsOrElse]

/-- A handler that throws an `Error` with an ordinary message. -/
def plainThrowHandler : HandlerFn := fun _ => .throwsError "db write failed"

/-- A handler that throws a non-`Error` value. -/
def nonErrorThrowHandler : HandlerFn := fun _ => .throwsNonError

/-- Witness for C5 (amended) at concrete inputs: an ordinary thrown error
is shaped to EXECUTION_ERROR with the thrown message; a thrown non-`Error`
value gets the generic message. -/
theorem thrown_error_classification_witness :
    (formatHandlerError (handlerExecute plainThrowHandler [] 5000)
        "cap").error =
      some ⟨"EXECUTION_ERROR", "db write failed", none, "cap"⟩ ∧
    (formatHandlerError (handlerExecute nonErrorThrowHandler [] 5000)
        "cap").error =
      some ⟨"EXECUTION_ERROR", "Unknown error during handler execution",
        none, "cap"⟩ := by
  have h1 := (thrown_error_classification plainThrowHandler [] 5000).1
    "db write failed" rfl (by decide)
  have h2 := (thrown_error_classification nonErrorThrowHandler [] 5000).2 rfl
  refine ⟨?_, h2.2⟩
  rw [h1.2]
  simp [show jsIncludes "db write failed" "timeout" = false from by decide]

/-- An optional string parameter declared before the required one. -/
def sendParamOne : Parameter :=
  ⟨"p1", "string", false, "optional note text", none, none, none, none⟩

/-- The required string parameter of the message-ordering scenario. -/
def sendParamTwo : Parameter :=
  ⟨"p2", "string", true, "the message body", none, none, none, none⟩

/-- The capability of the message-ordering scenario. -/
def sendCap : Capability :=
  ⟨"send", "Send", "sends a message", none, ⟨"send", "h.send"⟩,
    [sendParamOne, sendParamTwo], none, none, none⟩

/-- The manifest of the message-ordering scenario. -/
def sendManifest : Manifest :=
  ⟨"1.0.0", ⟨"Demo", "demo application"⟩, [("send", sendCap)]⟩

/-- The engine of the message-ordering scenario. -/
def sendEngine : Engine :=
  ⟨sendManifest, [("h.send", fun _ => .completes (.vObj []))], []⟩

/-- Counterexample to C7 as stated: the intent omits the required `p2` but
also supplies a wrongly-typed value for the earlier-declared `p1`, so the
single reported message is the first validation error, "Must be a string",
which does not mention "required". -/
theorem missing_required_param_message_counterexample :
    (engineExecute anyHost sendEngine ⟨"send", [("p1", .vNum 1)]⟩
      ⟨none, none⟩).1 =
      formatValidationError "Must be a string" "send" ∧
    isAbsent (jsGet ([("p1", Value.vNum 1)] : ObjMap) "p2") = true ∧
    sendParamTwo.isRequired = true ∧
    sendParamTwo ∈ sendCap.parameters ∧
    jsIncludes "Must be a string" "required" = false := by
  exact ⟨rfl, rfl, rfl, by simp [sendCap], by decide⟩

theorem errors_flatMap_nil (host : Host) (provided : ObjMap)
    (pre : List Parameter)
    (hpre : ∀ q ∈ pre,
      (paramValidate host q (jsGet provided q.name)).errors = []) :
    (pre.flatMap (fun paramDef =>
      (paramValidate host paramDef (jsGet provided paramDef.name)).errors))
      = [] := by
  induction pre with
  | nil => rfl
  | cons q l ih =>
      simp only [List.flatMap_cons]
      rw [hpre q (by simp), ih (fun r hr => hpre r (by simp [hr]))]
      rfl

theorem paramValidate_absent_required (host : Host) (p : Parameter)
    (value : Option Value) (habs : isAbsent value = true)
    (hreq : p.isRequired = true) :
    paramValidate host p value =
      ⟨false, ["Parameter \"" ++ p.name ++ "\" is required"]⟩ := by
  match value with
  | none => simp [paramValidate, hreq]
  | some .vNull => simp [paramValidate, hreq]
  | some (.vStr s) => exact Bool.noConfusion habs
  | some (.vNum n) => exact Bool.noConfusion habs
  | some (.vBool b) => exact Bool.noConfusion habs
  | some (.vArr l) => exact Bool.noConfusion habs
  | some (.vObj f) => exact Bool.noConfusion habs
  | some .vDate => exact Bool.noConfusion habs

/-- Claim C7 (amended): an intent omitting (missing or null) a required
parameter of its capability yields success=false with VALIDATION_ERROR;
the single reported message is the first validation error in parameter
declaration order, so it is the missing-required message — which mentions
"required" — whenever every parameter declared before the missing one
validates cleanly. -/
theorem missing_required_param_validation_error (host : Host) (e : Engine)
    (intent : Intent) (opts : ExecOptions) (cap : Capability)
    (pre : List Parameter) (p : Parameter) (post : List Parameter)
    (hid : intent.capabilityId ≠ "")
    (hcap : getCapability e.manifest intent.capabilityId = some cap)
    (hsplit : cap.parameters = pre ++ p :: post)
    (hreq : p.isRequired = true)
    (habs : isAbsent (jsGet intent.parameters p.name) = true)
    (hpre : ∀ q ∈ pre,
      (paramValidate host q (jsGet intent.parameters q.name)).errors = []) :
    (engineExecute host e intent opts).1 =
      formatValidationError ("Parameter \"" ++ p.name ++ "\" is required")
        intent.capabilityId ∧
    jsIncludes ("Parameter \"" ++ p.name ++ "\" is required") "required" =
      true := by
  have hperr := paramValidate_absent_required host p
    (jsGet intent.parameters p.name) habs hreq
  have hpreNil := errors_flatMap_nil host intent.parameters pre hpre
  have hva : validateAll host cap.parameters intent.parameters =
      ⟨false, ("Parameter \"" ++ p.name ++ "\" is required") ::
        (post.flatMap (fun paramDef =>
          (paramValidate host paramDef (jsGet intent.parameters
            paramDef.name)).errors))⟩ := by
    simp only [validateAll, hsplit, List.flatMap_append, List.flatMap_cons,
      hpreNil, hperr, List.nil_append]
    rfl
  have hvi : validateIntentErrors host e.manifest intent 0 =
      (⟨"Parameter \"" ++ p.name ++ "\" is required", 0, some "parameters"⟩ :
        StrategyValidationError) ::
        (post.flatMap (fun paramDef =>
          (paramValidate host paramDef (jsGet intent.parameters
            paramDef.name)).errors)).map
          (fun er => ⟨er, 0, some "parameters"⟩) := by
    rw [validateIntentErrors, if_neg hid, hcap]
    simp only [hva, List.map_cons]
    rfl
  have hflat : ([intent].enum.flatMap (fun q =>
      validateIntentErrors host e.manifest q.2 (Int.ofNat q.1))) =
      validateIntentErrors host e.manifest intent 0 := by
    simp [List.enum]
  have hsv : strategyValidate host e.manifest [intent] =
      ⟨false, validateIntentErrors host e.manifest intent 0⟩ := by
    rw [strategyValidate]
    simp only [List.isEmpty_cons, if_false, hflat]
    rw [hvi]
    rfl
  constructor
  · rw [engineExecute_validation_error_of_invalid host e intent opts
      (by rw [hsv])]
    rw [hsv, hvi]
    rfl
  · exact jsIncludes_append_right ("Parameter \"" ++ p.name)
      "\" is required" "required" (by decide)

/-- Witness for C7 (amended): omitting the required `p2` while `p1` is
valid yields the required-parameter VALIDATION_ERROR message. -/
theorem missing_required_param_validation_error_witness :
    (engineExecute anyHost sendEngine ⟨"send", [("p1", .vStr "hello")]⟩
      ⟨none, none⟩).1 =
      formatValidationError "Parameter \"p2\" is required" "send" ∧
    jsIncludes "Parameter \"p2\" is required" "required" = true := by
  have h := missing_required_param_validation_error anyHost sendEngine
    ⟨"send", [("p1", .vStr "hello")]⟩ ⟨none, none⟩ sendCap
    [sendParamOne] sendParamTwo [] (by decide) rfl rfl rfl rfl
    (fun q hq => by rw [List.mem_singleton.mp hq]; rfl)
  exact h

theorem exceptOk_bind {ε α β : Type} (a : α) (f : α → Except ε β) :
    (Except.ok a : Except ε α) >>= f = f a := rfl

theorem exceptError_bind {ε α β : Type} (er : ε) (f : α → Except ε β) :
    (Except.error er : Except ε α) >>= f = Except.error er := rfl

theorem registryRegisterMany_ok (acc : List (String × HandlerFn))
    (handlers : List (String × HandlerFn))
    (hh : ∀ p ∈ handlers, p.1 ≠ "") :
    ∃ R, registryRegisterMany acc handlers = .ok R ∧
      ∀ k, registryHas R k = true ↔
        registryHas acc k = true ∨ k ∈ handlers.map Prod.fst := by
  induction handlers generalizing acc with
  | nil => exact ⟨acc, rfl, fun k => by simp⟩
  | cons p rest ih =>
      obtain ⟨ref, handler⟩ := p
      have href : ref ≠ "" := hh (ref, handler) (by simp)
      obtain ⟨R, hR, hkeys⟩ :=
        ih (jsSet acc ref handler) (fun q hq => hh q (by simp [hq]))
      refine ⟨R, ?_, fun k => ?_⟩
      · rw [registryRegisterMany, registryRegister, if_neg href]
        exact hR
      · rw [hkeys k]
        by_cases hk : k = ref
        · subst hk
          simp [registryHas, jsGet_jsSet_self]
        · rw [registryHas, jsGet_jsSet_ne acc ref k handler hk,
            ← registryHas]
          simp [hk]

theorem checkerRegisterMany_ok (acc : List (String × CheckerFn))
    (entries : List (String × CheckerFn))
    (hc : ∀ p ∈ entries, p.1 ≠ "") :
    ∃ C, checkerRegisterMany acc entries = .ok C := by
  induction entries generalizing acc with
  | nil => exact ⟨acc, rfl⟩
  | cons p rest ih =>
      obtain ⟨ref, checker⟩ := p
      have href : ref ≠ "" := hc (ref, checker) (by simp)
      obtain ⟨C, hC⟩ := ih (jsSet acc ref checker)
        (fun q hq => hc q (by simp [hq]))
      refine ⟨C, ?_⟩
      rw [checkerRegisterMany, checkerRegister, if_neg href]
      exact hC

theorem mem_if_missing (R : List (String × HandlerFn)) (ref r : String) :
    r ∈ (if registryHas R ref then [] else [ref]) ↔
      r = ref ∧ registryHas R r = false := by
  constructor
  · intro hmem
    by_cases h : registryHas R ref = true
    · rw [if_pos h] at hmem
      exact absurd hmem (List.not_mem_nil r)
    · rw [if_neg h] at hmem
      have hr := List.mem_singleton.mp hmem
      subst hr
      exact ⟨rfl, by simpa using h⟩
  · rintro ⟨rfl, hf⟩
    rw [if_neg (by simp [hf])]
    exact List.mem_singleton.mpr rfl

theorem mem_undoMissingOf (manifest : Manifest)
    (R : List (String × HandlerFn)) (o : Option String) (r : String) :
    r ∈ undoMissingOf manifest R o ↔
      ∃ u, o = some u ∧ r = getHandlerRef manifest.capabilities u ∧
        registryHas R r = false := by
  cases o with
  | none => simp [undoMissingOf]
  | some u =>
      simp only [undoMissingOf]
      constructor
      · intro hmem
        by_cases h :
            registryHas R (getHandlerRef manifest.capabilities u) = true
        · rw [if_pos h] at hmem
          exact absurd hmem (List.not_mem_nil r)
        · rw [if_neg h] at hmem
          have hr := List.mem_singleton.mp hmem
          subst hr
          exact ⟨u, rfl, rfl, by simpa using h⟩
      · rintro ⟨u', hu', rfl, hf⟩
        obtain rfl : u = u' := Option.some.inj hu'
        rw [if_neg (by simp [hf])]
        exact List.mem_singleton.mpr rfl

theorem mem_missingHandlerRefs (manifest : Manifest)
    (R : List (String × HandlerFn)) (r : String) :
    r ∈ missingHandlerRefs manifest R ↔
      ∃ cap, cap ∈ manifest.capabilities.map Prod.snd ∧
        ((r = cap.handler.handlerRef ∧ registryHas R r = false) ∨
         (∃ u, undoIdTruthy cap.undoCapabilityId = some u ∧
           r = getHandlerRef manifest.capabilities u ∧
           registryHas R r = false)) := by
  simp only [missingHandlerRefs, List.mem_flatMap, List.mem_append,
    mem_if_missing, mem_undoMissingOf]

theorem missingHandlerRefs_nil_iff (manifest : Manifest)
    (R : List (String × HandlerFn)) :
    missingHandlerRefs manifest R = [] ↔
      ∀ cap ∈ manifest.capabilities.map Prod.snd,
        registryHas R cap.handler.handlerRef = true ∧
        ∀ u, undoIdTruthy cap.undoCapabilityId = some u →
          registryHas R (getHandlerRef manifest.capabilities u) = true := by
  rw [missingHandlerRefs, List.flatMap_eq_nil_iff]
  refine forall_congr' (fun cap => ?_)
  refine imp_congr_right (fun _ => ?_)
  rw [List.append_eq_nil]
  constructor
  · rintro ⟨hp, hu⟩
    constructor
    · by_cases h : registryHas R cap.handler.handlerRef = true
      · exact h
      · rw [if_neg h] at hp; exact absurd hp (by simp)
    · intro u htu
      rw [htu] at hu
      simp only [undoMissingOf] at hu
      by_cases h :
          registryHas R (getHandlerRef manifest.capabilities u) = true
      · exact h
      · rw [if_neg h] at hu; exact absurd hu (by simp)
  · rintro ⟨hp, hu⟩
    constructor
    · rw [if_pos hp]
    · cases ht : undoIdTruthy cap.undoCapabilityId with
      | none => rfl
      | some u =>
          simp only [undoMissingOf]
          rw [if_pos (hu u ht)]

/-- Claim C1: with well-formed registrations (non-empty handler and checker
references, as the registries themselves require), engine construction
succeeds iff every capability's primary handler reference and, when an
undo-capability id is declared, the handler reference resolved from that id
are present in the supplied handler map; otherwise it fails — before any
intent can be executed — with an error naming exactly the missing
references. -/
theorem engine_construction_succeeds_iff (manifest : Manifest)
    (handlers : List (String × HandlerFn))
    (checkers : List (String × CheckerFn))
    (hh : ∀ p ∈ handlers, p.1 ≠ "") (hc : ∀ p ∈ checkers, p.1 ≠ "") :
    ((∃ eng, engineNew manifest handlers checkers = .ok eng) ↔
      ∀ cap ∈ manifest.capabilities.map Prod.snd,
        cap.handler.handlerRef ∈ handlers.map Prod.fst ∧
        ∀ u, undoIdTruthy cap.undoCapabilityId = some u →
          getHandlerRef manifest.capabilities u ∈ handlers.map Prod.fst) ∧
    (∀ msg, engineNew manifest handlers checkers = .error msg →
      ∃ missing, missing ≠ [] ∧
        msg = "Missing handler registrations: " ++
          String.intercalate ", " missing ∧
        ∀ r, r ∈ missing ↔
          ∃ cap, cap ∈ manifest.capabilities.map Prod.snd ∧
            ((r = cap.handler.handlerRef ∧ r ∉ handlers.map Prod.fst) ∨
             (∃ u, undoIdTruthy cap.undoCapabilityId = some u ∧
               r = getHandlerRef manifest.capabilities u ∧
               r ∉ handlers.map Prod.fst))) := by
  obtain ⟨R, hR, hkeys⟩ := registryRegisterMany_ok [] handlers hh
  obtain ⟨C, hC⟩ := checkerRegisterMany_ok [] checkers hc
  have hkeys' : ∀ k, registryHas R k = true ↔ k ∈ handlers.map Prod.fst := by
    intro k
    rw [hkeys k]
    simp [registryHas, jsGet]
  have hkeysF : ∀ k, registryHas R k = false ↔ k ∉ handlers.map Prod.fst := by
    intro k
    rw [← hkeys' k]
    simp
  have hnew : engineNew manifest handlers checkers =
      (if (missingHandlerRefs manifest R).isEmpty then
        Except.ok (⟨manifest, R, C⟩ : Engine)
      else Except.error ("Missing handler registrations: " ++
        String.intercalate ", " (missingHandlerRefs manifest R))) := by
    by_cases hm : missingHandlerRefs manifest R = []
    · simp [engineNew, hR, hC, exceptOk_bind, exceptError_bind,
        validateHandlerBindings, hm]
    · simp [engineNew, hR, hC, exceptOk_bind, exceptError_bind,
        validateHandlerBindings, hm]
  constructor
  · constructor
    · rintro ⟨eng, heng⟩
      rw [hnew] at heng
      by_cases hm : (missingHandlerRefs manifest R).isEmpty
      · rw [List.isEmpty_iff] at hm
        intro cap hcap
        obtain ⟨h1, h2⟩ := (missingHandlerRefs_nil_iff manifest R).mp hm cap
          hcap
        exact ⟨(hkeys' _).mp h1, fun u hu => (hkeys' _).mp (h2 u hu)⟩
      · rw [if_neg hm] at heng
        exact Except.noConfusion heng
    · intro hall
      have hm : missingHandlerRefs manifest R = [] := by
        rw [missingHandlerRefs_nil_iff]
        intro cap hcap
        exact ⟨(hkeys' _).mpr (hall cap hcap).1,
          fun u hu => (hkeys' _).mpr ((hall cap hcap).2 u hu)⟩
      refine ⟨⟨manifest, R, C⟩, ?_⟩
      rw [hnew, hm]
      rfl
  · intro msg hmsg
    rw [hnew] at hmsg
    by_cases hm : (missingHandlerRefs manifest R).isEmpty
    · rw [if_pos hm] at hmsg
      exact Except.noConfusion hmsg
    · rw [if_neg hm] at hmsg
      refine ⟨missingHandlerRefs manifest R, by simpa using hm,
        (Except.error.inj hmsg).symm, fun r => ?_⟩
      rw [mem_missingHandlerRefs]
      refine exists_congr (fun cap => and_congr_right (fun _ => ?_))
      rw [hkeysF r]

/-- The capability with a missing primary handler for the C1 witness. -/
def orphanCap : Capability :=
  ⟨"orphan", "Orphan", "no handler is registered", none,
    ⟨"orphan", "h.orphan"⟩, [], none, none, none⟩

/-- A manifest whose single capability has no registered handler. -/
def orphanManifest : Manifest :=
  ⟨"1.0.0", ⟨"Demo", "demo application"⟩, [("orphan", orphanCap)]⟩

/-- Witness for C1 at concrete inputs: construction over the file-scenario
manifest succeeds, and over the orphan manifest fails naming the missing
reference. -/
theorem engine_construction_succeeds_iff_witness :
    (∃ eng, engineNew fileManifest [("h.upload", fileHandler)] [] =
      .ok eng) ∧
    (∀ msg, engineNew orphanManifest [("h.upload", fileHandler)] []
        = .error msg →
      ∃ missing, missing ≠ [] ∧
        msg = "Missing handler registrations: " ++
          String.intercalate ", " missing ∧
        ∀ r, r ∈ missing ↔
          ∃ cap, cap ∈ orphanManifest.capabilities.map Prod.snd ∧
            ((r = cap.handler.handlerRef ∧
              r ∉ ([("h.upload", fileHandler)].map Prod.fst : List String)) ∨
             (∃ u, undoIdTruthy cap.undoCapabilityId = some u ∧
               r = getHandlerRef orphanManifest.capabilities u ∧
               r ∉ ([("h.upload", fileHandler)].map Prod.fst :
                 List String)))) := by
  constructor
  · refine (engine_construction_succeeds_iff fileManifest
      [("h.upload", fileHandler)] [] (fun p hp => ?_)
      (fun p hp => by simp at hp)).1.mpr ?_
    · rw [List.mem_singleton.mp hp]
      decide
    · intro cap hcap
      rw [show (fileManifest.capabilities.map Prod.snd) = [fileCap] from rfl]
        at hcap
      rw [List.mem_singleton.mp hcap]
      constructor
      · simp [fileCap]
      · intro u hu
        exact Option.noConfusion hu
  · exact (engine_construction_succeeds_iff orphanManifest
      [("h.upload", fileHandler)] []
      (fun p hp => by rw [List.mem_singleton.mp hp]; decide)
      (fun p hp => by simp at hp)).2

theorem handleFailure_result_fields (host : Host) (e : Engine)
    (state : ExecutionState) (code message : String) :
    (handleFailureWithRollback host e state code message).1.success = false ∧
    (handleFailureWithRollback host e state code message).1.paused = false ∧
    (handleFailureWithRollback host e state code message).1.results =
      state.results ∧
    (handleFailureWithRollback host e state code message).1.completedSteps =
      (state.results.filter (fun r => r.success)).length ∧
    (handleFailureWithRollback host e state code message).1.error =
      some ⟨code, message, some state.currentIndex⟩ := by
  rw [handleFailureWithRollback]
  by_cases hc :
      state.options.transactional = false ∨ state.executedSteps.isEmpty = true
  · rw [if_pos hc]
    exact ⟨rfl, rfl, rfl, rfl, rfl⟩
  · rw [if_neg hc]
    exact ⟨rfl, rfl, rfl, rfl, rfl⟩

theorem execLoop_completedSteps (host : Host) (e : Engine)
    (freshToken : String) (paused : PausedMap) (fuel : Nat) :
    ∀ state : ExecutionState,
    ((execLoop host e freshToken paused fuel state).1.success = true →
      (execLoop host e freshToken paused fuel state).1.completedSteps =
        (execLoop host e freshToken paused fuel state).1.results.length) ∧
    ((execLoop host e freshToken paused fuel state).1.success = false →
      (execLoop host e freshToken paused fuel state).1.paused = false →
      (execLoop host e freshToken paused fuel state).1.completedSteps =
        ((execLoop host e freshToken paused fuel state).1.results.filter
          (fun x => x.success)).length) := by
  induction fuel with
  | zero =>
      intro state
      exact ⟨fun _ => rfl, fun hs _ => Bool.noConfusion hs⟩
  | succ f ih =>
      intro state
      by_cases h : state.currentIndex < state.strategy.length
      · simp only [execLoop]
        rw [dif_pos h]
        split
        case _ heq =>
          -- capability not found: failure path
          obtain ⟨h1, h2, h3, h4, h5⟩ := handleFailure_result_fields host e
            state "CAPABILITY_NOT_FOUND"
            ("Capability \"" ++
              (state.strategy.get ⟨state.currentIndex, h⟩).capabilityId ++
              "\" not found")
          refine ⟨fun hs => ?_, fun _ _ => by dsimp only; rw [h4, h3]⟩
          dsimp only at hs
          rw [h1] at hs
          exact Bool.noConfusion hs
        case _ capability heq =>
          -- capability resolved
          by_cases hmp : (findMissingOnDemandParams capability
              (state.strategy.get ⟨state.currentIndex, h⟩).parameters
              (jsGet state.collectedParameters
                state.currentIndex)).isEmpty = false
          · rw [if_pos hmp]
            exact ⟨fun hs => Bool.noConfusion hs,
              fun _ hp => Bool.noConfusion hp⟩
          · rw [if_neg hmp]
            by_cases hrs : (engineExecute host e
                (mergeParameters (state.strategy.get ⟨state.currentIndex, h⟩)
                  (jsGet state.collectedParameters state.currentIndex))
                ⟨state.options.timeout,
                  some state.accumulatedContext⟩).1.success = false
            · rw [if_pos hrs]
              by_cases hco : state.options.continueOnError = true ∧
                  isNonCriticalError (engineExecute host e
                    (mergeParameters
                      (state.strategy.get ⟨state.currentIndex, h⟩)
                      (jsGet state.collectedParameters state.currentIndex))
                    ⟨state.options.timeout,
                      some state.accumulatedContext⟩).1 = true
              · rw [if_pos hco]
                exact ih _
              · rw [if_neg hco]
                obtain ⟨h1, h2, h3, h4, h5⟩ := handleFailure_result_fields
                  host e _ _ _
                refine ⟨fun hs => ?_, fun _ _ => by dsimp only; rw [h4, h3]⟩
                dsimp only at hs
                rw [h1] at hs
                exact Bool.noConfusion hs
            · rw [if_neg hrs]
              exact ih _
      · simp only [execLoop]
        rw [dif_neg h]
        exact ⟨fun _ => rfl, fun hs _ => Bool.noConfusion hs⟩

/-- Claim C10: the completed-step count is computed inconsistently between
outcomes: a run whose main loop reaches the end (success) reports the total
number of per-step results, while a failing run reports only the number of
successful per-step results — so a success under `continueOnError` that
skipped a failed non-critical step counts that failed step in
`completedSteps`, strictly exceeding the number of successful results. -/
theorem completed_steps_count_inconsistency (host : Host) (e : Engine)
    (freshToken : String) (paused : PausedMap) (state : ExecutionState) :
    ((executeFromState host e freshToken paused state).1.success = true →
      (executeFromState host e freshToken paused state).1.completedSteps =
        (executeFromState host e freshToken paused state).1.results.length) ∧
    ((executeFromState host e freshToken paused state).1.success = false →
      (executeFromState host e freshToken paused state).1.paused = false →
      (executeFromState host e freshToken paused state).1.completedSteps =
        ((executeFromState host e freshToken paused
          state).1.results.filter (fun x => x.success)).length) ∧
    ((executeFromState host e freshToken paused state).1.success = true →
      ∀ x ∈ (executeFromState host e freshToken paused state).1.results,
        x.success = false →
        ((executeFromState host e freshToken paused
          state).1.results.filter (fun y => y.success)).length <
          (executeFromState host e freshToken paused
            state).1.completedSteps) := by
  obtain ⟨p1, p2⟩ := execLoop_completedSteps host e freshToken paused
    (state.strategy.length - state.currentIndex) state
  refine ⟨p1, p2, fun hs x hx hxf => ?_⟩
  rw [executeFromState] at *
  rw [p1 hs]
  exact List.length_filter_lt_length_iff_exists.mpr ⟨x, hx, by simp [hxf]⟩

/-- First capability of the continueOnError scenario. -/
def stepOneCap : Capability :=
  ⟨"stepOne", "Step one", "first step", none, ⟨"stepOne", "h.s1"⟩, [],
    none, none, none⟩

/-- Second capability: its precondition's checker is never registered, so
the step fails with PRECONDITION_FAILED (a non-critical error). -/
def stepTwoCap : Capability :=
  ⟨"stepTwo", "Step two", "gated step", none, ⟨"stepTwo", "h.s2"⟩, [],
    some [⟨⟨"gate", "c.gate"⟩, "the gate", "gate failed"⟩], none, none⟩

/-- Third capability of the continueOnError scenario. -/
def stepThreeCap : Capability :=
  ⟨"stepThree", "Step three", "third step", none, ⟨"stepThree", "h.s3"⟩, [],
    none, none, none⟩

/-- The manifest of the continueOnError scenario. -/
def skipManifest : Manifest :=
  ⟨"1.0.0", ⟨"Demo", "demo application"⟩,
    [("stepOne", stepOneCap), ("stepTwo", stepTwoCap),
     ("stepThree", stepThreeCap)]⟩

/-- The engine of the continueOnError scenario. -/
def skipEngine : Engine :=
  ⟨skipManifest,
    [("h.s1", fun _ => .completes (.vObj [])),
     ("h.s2", fun _ => .completes (.vObj [])),
     ("h.s3", fun _ => .completes (.vObj []))], []⟩

/-- A three-step run with continueOnError in which the second step is
skipped on a precondition failure. -/
def skipRun : StrategyResult × List TraceEv × PausedMap :=
  executeStrategy anyHost skipEngine "tok" []
    [⟨"stepOne", []⟩, ⟨"stepTwo", []⟩, ⟨"stepThree", []⟩]
    ⟨none, none, false, true⟩

/-- Witness for C10 at a concrete input: the run succeeds with three
results of which only two are successful, yet completedSteps is 3. -/
theorem completed_steps_count_inconsistency_witness :
    skipRun.1.success = true ∧
    skipRun.1.completedSteps = skipRun.1.results.length ∧
    skipRun.1.completedSteps = 3 ∧
    (skipRun.1.results.filter (fun x => x.success)).length = 2 ∧
    (skipRun.1.results.filter (fun x => x.success)).length <
      skipRun.1.completedSteps := by
  have h := completed_steps_count_inconsistency anyHost skipEngine "tok" []
    ⟨[⟨"stepOne", []⟩, ⟨"stepTwo", []⟩, ⟨"stepThree", []⟩], 0, [], [], [],
      [], ⟨none, none, false, true⟩⟩
  refine ⟨rfl, h.1 rfl, rfl, rfl, ?_⟩
  have hx := h.2.2 rfl
  exact hx (skipRun.1.results.get ⟨1, by decide⟩)
    (List.get_mem skipRun.1.results 1 (by decide)) (by rfl)

theorem mem_findMissingOnDemandParams (cap : Capability)
    (provided : ObjMap) (collected : Option ObjMap) (r : ParameterRequest) :
    r ∈ findMissingOnDemandParams cap provided collected ↔
      ∃ p, p ∈ cap.parameters ∧
        p.collectionApproach = some "on-demand" ∧ p.isRequired = true ∧
        isAbsent (jsGet (mergeObj provided (collected.getD [])) p.name) =
          true ∧
        r = ⟨cap.id, p.name, p.description, p.type,
          p.isSensitive.getD false⟩ := by
  simp only [findMissingOnDemandParams, List.mem_filterMap]
  constructor
  · rintro ⟨p, hp, hsome⟩
    split_ifs at hsome with h1 h2
    · exact ⟨p, hp, h1.1, h1.2, h2, (Option.some.inj hsome).symm⟩
  · rintro ⟨p, hp, hca, hreq, habs, rfl⟩
    refine ⟨p, hp, ?_⟩
    rw [if_pos ⟨hca, hreq⟩, if_pos habs]

/-- Claim C4: when the step at the current index has at least one required
on-demand parameter unsatisfied by the union of provided and previously
collected values, the orchestrator does not dispatch the step (no handler
invocation is traced): it parks the ExecutionState under the minted resume
token and returns a paused result carrying that token and exactly the
missing required on-demand parameters, each with its capability id, name,
description, declared type, and sensitivity flag. -/
theorem pause_enumerates_missing_on_demand_params (host : Host) (e : Engine)
    (freshToken : String) (paused : PausedMap) (state : ExecutionState)
    (cap : Capability)
    (h : state.currentIndex < state.strategy.length)
    (hcap : getCapability e.manifest
      (state.strategy.get ⟨state.currentIndex, h⟩).capabilityId = some cap)
    (hmiss : findMissingOnDemandParams cap
      (state.strategy.get ⟨state.currentIndex, h⟩).parameters
      (jsGet state.collectedParameters state.currentIndex) ≠ []) :
    executeFromState host e freshToken paused state =
      (⟨false, state.results, none, true,
        some (findMissingOnDemandParams cap
          (state.strategy.get ⟨state.currentIndex, h⟩).parameters
          (jsGet state.collectedParameters state.currentIndex)),
        some freshToken, state.results.length, false, none⟩,
       [], jsSet paused freshToken state) ∧
    (∀ r, r ∈ findMissingOnDemandParams cap
        (state.strategy.get ⟨state.currentIndex, h⟩).parameters
        (jsGet state.collectedParameters state.currentIndex) ↔
      ∃ p, p ∈ cap.parameters ∧
        p.collectionApproach = some "on-demand" ∧ p.isRequired = true ∧
        isAbsent (jsGet (mergeObj
          (state.strategy.get ⟨state.currentIndex, h⟩).parameters
          ((jsGet state.collectedParameters
            state.currentIndex).getD [])) p.name) = true ∧
        r = ⟨cap.id, p.name, p.description, p.type,
          p.isSensitive.getD false⟩) := by
  refine ⟨?_, fun r => mem_findMissingOnDemandParams cap _ _ r⟩
  obtain ⟨f, hf⟩ :
      ∃ f, state.strategy.length - state.currentIndex = f + 1 :=
    ⟨state.strategy.length - state.currentIndex - 1, by omega⟩
  rw [executeFromState, hf]
  simp only [execLoop]
  rw [dif_pos h]
  split
  case _ heq =>
      rw [hcap] at heq
      exact Option.noConfusion heq
  case _ capability heq =>
      rw [hcap] at heq
      obtain rfl : capability = cap := (Option.some.inj heq).symm
      have hie : (findMissingOnDemandParams capability
          (state.strategy.get ⟨state.currentIndex, h⟩).parameters
          (jsGet state.collectedParameters
            state.currentIndex)).isEmpty = false := by
        rcases hl : findMissingOnDemandParams capability
            (state.strategy.get ⟨state.currentIndex, h⟩).parameters
            (jsGet state.collectedParameters state.currentIndex) with
          _ | ⟨a, rest⟩
        · exact absurd hl hmiss
        · rfl
      rw [if_pos hie]
      rfl

/-- A required, sensitive on-demand parameter. -/
def odParamA : Parameter :=
  ⟨"a", "string", true, "first secret", none, none, some true,
    some "on-demand"⟩

/-- A second required on-demand parameter. -/
def odParamB : Parameter :=
  ⟨"b", "string", true, "second secret", none, none, none,
    some "on-demand"⟩

/-- The checkout capability with two required on-demand parameters. -/
def checkoutCap : Capability :=
  ⟨"checkout", "Checkout", "performs checkout", none,
    ⟨"checkout", "h.checkout"⟩, [odParamA, odParamB], none, none, none⟩

/-- The manifest of the checkout scenario. -/
def checkoutManifest : Manifest :=
  ⟨"1.0.0", ⟨"Demo", "demo application"⟩, [("checkout", checkoutCap)]⟩

/-- The engine of the checkout scenario. -/
def checkoutEngine : Engine :=
  ⟨checkoutManifest, [("h.checkout", fun _ => .completes (.vObj []))], []⟩

/-- The initial execution state of the checkout scenario. -/
def checkoutState : ExecutionState :=
  ⟨[⟨"checkout", []⟩], 0, [], [], [], [], ⟨none, none, false, false⟩⟩

/-- Witness for C4 at a concrete input: both on-demand parameters are
reported with their metadata, the state is parked under the token, and no
handler is invoked. -/
theorem pause_enumerates_missing_on_demand_params_witness :
    executeFromState anyHost checkoutEngine "tokA" [] checkoutState =
      (⟨false, [], none, true,
        some (findMissingOnDemandParams checkoutCap [] none),
        some "tokA", 0, false, none⟩,
       [], jsSet [] "tokA" checkoutState) ∧
    findMissingOnDemandParams checkoutCap [] none =
      [⟨"checkout", "a", "first secret", "string", true⟩,
       ⟨"checkout", "b", "second secret", "string", false⟩] := by
  have h := pause_enumerates_missing_on_demand_params anyHost checkoutEngine
    "tokA" [] checkoutState checkoutCap (by decide) rfl
    (fun hh => List.noConfusion hh)
  exact ⟨h.1, rfl⟩

theorem rollbackWalk_events_undo (host : Host) (e : Engine) (ctx : ObjMap) :
    ∀ (steps : List ExecutedStep) (ev : TraceEv),
      ev ∈ (rollbackWalk host e ctx steps).2 →
      ∃ r p, ev = TraceEv.undo r p := by
  intro steps
  induction steps with
  | nil => intro ev hev; simp [rollbackWalk] at hev
  | cons s older ih =>
      intro ev hev
      rw [rollbackWalk] at hev
      revert hev
      split
      case _ heq =>
        intro hev
        exact ih ev hev
      case _ u heq =>
        intro hev
        dsimp only at hev
        by_cases hs : (engineExecute host e
            ⟨u, s.intent.parameters⟩ ⟨none, some ctx⟩).1.success = true
        · rw [if_pos hs] at hev
          dsimp only at hev
          rw [List.mem_append] at hev
          rcases hev with hl | hr
          · obtain ⟨p, _, rfl⟩ := List.mem_map.mp hl
            exact ⟨p.1, p.2, rfl⟩
          · exact ih ev hr
        · rw [if_neg hs] at hev
          dsimp only at hev
          obtain ⟨p, _, rfl⟩ := List.mem_map.mp hev
          exact ⟨p.1, p.2, rfl⟩

theorem handleFailure_events_undo (host : Host) (e : Engine)
    (state : ExecutionState) (code message : String) (ev : TraceEv)
    (hev : ev ∈ (handleFailureWithRollback host e state code message).2) :
    ∃ r p, ev = TraceEv.undo r p := by
  rw [handleFailureWithRollback] at hev
  revert hev
  by_cases hc :
      state.options.transactional = false ∨ state.executedSteps.isEmpty = true
  · rw [if_pos hc]
    intro hev
    simp at hev
  · rw [if_neg hc]
    intro hev
    exact rollbackWalk_events_undo host e state.accumulatedContext
      state.executedSteps.reverse ev hev

theorem execLoop_paused_table (host : Host) (e : Engine)
    (freshToken : String) (paused : PausedMap) (fuel : Nat) :
    ∀ state : ExecutionState,
      (execLoop host e freshToken paused fuel state).2.2 = paused ∨
      ∃ st', (execLoop host e freshToken paused fuel state).2.2 =
        jsSet paused freshToken st' := by
  induction fuel with
  | zero => intro state; exact Or.inl rfl
  | succ f ih =>
      intro state
      by_cases h : state.currentIndex < state.strategy.length
      · simp only [execLoop]
        rw [dif_pos h]
        split
        case _ heq => exact Or.inl rfl
        case _ capability heq =>
          by_cases hmp : (findMissingOnDemandParams capability
              (state.strategy.get ⟨state.currentIndex, h⟩).parameters
              (jsGet state.collectedParameters
                state.currentIndex)).isEmpty = false
          · rw [if_pos hmp]
            exact Or.inr ⟨state, rfl⟩
          · rw [if_neg hmp]
            by_cases hrs : (engineExecute host e
                (mergeParameters (state.strategy.get ⟨state.currentIndex, h⟩)
                  (jsGet state.collectedParameters state.currentIndex))
                ⟨state.options.timeout,
                  some state.accumulatedContext⟩).1.success = false
            · rw [if_pos hrs]
              by_cases hco : state.options.continueOnError = true ∧
                  isNonCriticalError (engineExecute host e
                    (mergeParameters
                      (state.strategy.get ⟨state.currentIndex, h⟩)
                      (jsGet state.collectedParameters state.currentIndex))
                    ⟨state.options.timeout,
                      some state.accumulatedContext⟩).1 = true
              · rw [if_pos hco]
                exact ih _
              · rw [if_neg hco]
                exact Or.inl rfl
            · rw [if_neg hrs]
              exact ih _
      · simp only [execLoop]
        rw [dif_neg h]
        exact Or.inl rfl

theorem execLoop_step_events_ge (host : Host) (e : Engine)
    (freshToken : String) (paused : PausedMap) (fuel : Nat) :
    ∀ (state : ExecutionState) (i : Nat) (ref : String) (ps : ObjMap),
      TraceEv.step i ref ps ∈ (execLoop host e freshToken paused
        fuel state).2.1 →
      state.currentIndex ≤ i := by
  induction fuel with
  | zero => intro state i ref ps hev; simp [execLoop] at hev
  | succ f ih =>
      intro state i ref ps hev
      by_cases h : state.currentIndex < state.strategy.length
      · rw [show execLoop host e freshToken paused (f + 1) state =
            _ from rfl] at hev
        simp only [execLoop] at hev
        rw [dif_pos h] at hev
        revert hev
        split
        case _ heq =>
          intro hev
          dsimp only at hev
          obtain ⟨r, p, hrp⟩ := handleFailure_events_undo host e state
            "CAPABILITY_NOT_FOUND" _ _ hev
          exact absurd hrp (by intro hh; exact TraceEv.noConfusion hh)
        case _ capability heq =>
          by_cases hmp : (findMissingOnDemandParams capability
              (state.strategy.get ⟨state.currentIndex, h⟩).parameters
              (jsGet state.collectedParameters
                state.currentIndex)).isEmpty = false
          · rw [if_pos hmp]
            intro hev
            simp at hev
          · rw [if_neg hmp]
            by_cases hrs : (engineExecute host e
                (mergeParameters (state.strategy.get ⟨state.currentIndex, h⟩)
                  (jsGet state.collectedParameters state.currentIndex))
                ⟨state.options.timeout,
                  some state.accumulatedContext⟩).1.success = false
            · rw [if_pos hrs]
              by_cases hco : state.options.continueOnError = true ∧
                  isNonCriticalError (engineExecute host e
                    (mergeParameters
                      (state.strategy.get ⟨state.currentIndex, h⟩)
                      (jsGet state.collectedParameters state.currentIndex))
                    ⟨state.options.timeout,
                      some state.accumulatedContext⟩).1 = true
              · rw [if_pos hco]
                intro hev
                dsimp only at hev
                rw [List.mem_append] at hev
                rcases hev with hl | hr
                · obtain ⟨p, _, hp⟩ := List.mem_map.mp hl
                  obtain ⟨rfl, _, _⟩ : state.currentIndex = i ∧
                      p.1 = ref ∧ p.2 = ps := by
                    injection hp with a b c
                    exact ⟨a, b, c⟩
                  exact Nat.le_refl _
                · have := ih _ i ref ps hr
                  simp only at this
                  omega
              · rw [if_neg hco]
                intro hev
                dsimp only at hev
                rw [List.mem_append] at hev
                rcases hev with hl | hr
                · obtain ⟨p, _, hp⟩ := List.mem_map.mp hl
                  obtain ⟨rfl, _, _⟩ : state.currentIndex = i ∧
                      p.1 = ref ∧ p.2 = ps := by
                    injection hp with a b c
                    exact ⟨a, b, c⟩
                  exact Nat.le_refl _
                · obtain ⟨r, p, hrp⟩ := handleFailure_events_undo host e _
                    _ _ _ hr
                  exact absurd hrp (by intro hh; exact TraceEv.noConfusion hh)
            · rw [if_neg hrs]
              intro hev
              dsimp only at hev
              rw [List.mem_append] at hev
              rcases hev with hl | hr
              · obtain ⟨p, _, hp⟩ := List.mem_map.mp hl
                obtain ⟨rfl, _, _⟩ : state.currentIndex = i ∧
                    p.1 = ref ∧ p.2 = ps := by
                  injection hp with a b c
                  exact ⟨a, b, c⟩
                exact Nat.le_refl _
              · have := ih _ i ref ps hr
                simp only at this
                omega
      · simp only [execLoop] at hev
        rw [dif_neg h] at hev
        simp at hev

/-- First pause of the two-pause resume scenario. -/
def pauseRunOne : StrategyResult × List TraceEv × PausedMap :=
  executeStrategy anyHost checkoutEngine "t1" [] [⟨"checkout", []⟩]
    ⟨none, none, false, false⟩

/-- First resume, supplying only parameter `a`; the run pauses again. -/
def pauseRunTwo : StrategyResult × List TraceEv × PausedMap :=
  resumeStrategy anyHost checkoutEngine "t2" pauseRunOne.2.2 "t1"
    [("a", .vStr "1")]

/-- Second resume, supplying only parameter `b`. -/
def pauseRunThree : StrategyResult × List TraceEv × PausedMap :=
  resumeStrategy anyHost checkoutEngine "t3" pauseRunTwo.2.2 "t2"
    [("b", .vStr "2")]

/-- Counterexample to C3 as stated: after the first resume collected `a`,
the second resume (supplying `b`) pauses again asking for `a` — the
previously collected value for `a`, though not overwritten by name, was NOT
preserved, because `resumeStrategy` replaces the collected entry for the
step index instead of merging into it. -/
theorem resume_merge_preservation_counterexample :
    pauseRunTwo.1.paused = true ∧
    (pauseRunTwo.1.requiredInputs.getD []).map (fun q => q.parameter) =
      ["b"] ∧
    pauseRunThree.1.paused = true ∧
    (pauseRunThree.1.requiredInputs.getD []).map (fun q => q.parameter) =
      ["a"] := by
  exact ⟨rfl, rfl, rfl, rfl⟩

/-- Claim C3 (amended): resuming with an unknown token returns the
INVALID_RESUME_TOKEN result and leaves the parked-state table untouched;
resuming with a valid token REPLACES (rather than merges) the
collected-parameters entry for the parked step index with the
caller-supplied values, deletes the token — so a second resume with the
same token always misses, provided the freshly minted token differs from
the consumed one — and continues the main loop from the parked index,
never dispatching a handler for an earlier (already completed) step. -/
theorem resume_replaces_collected_and_consumes_token (host : Host)
    (e : Engine) (freshToken : String) (paused : PausedMap)
    (resumeToken : String) (additionalParams : ObjMap) :
    (jsGet paused resumeToken = none →
      resumeStrategy host e freshToken paused resumeToken additionalParams =
        (invalidResumeTokenResult, [], paused)) ∧
    (∀ st, jsGet paused resumeToken = some st →
      resumeStrategy host e freshToken paused resumeToken additionalParams =
        executeFromState host e freshToken (jsDelete paused resumeToken)
          { st with collectedParameters := jsSet st.collectedParameters st.currentIndex additionalParams } ∧
      jsGet (jsDelete paused resumeToken) resumeToken = none ∧
      (freshToken ≠ resumeToken →
        jsGet (resumeStrategy host e freshToken paused resumeToken
          additionalParams).2.2 resumeToken = none) ∧
      (∀ i ref ps,
        TraceEv.step i ref ps ∈ (resumeStrategy host e freshToken paused
          resumeToken additionalParams).2.1 →
        st.currentIndex ≤ i)) := by
  constructor
  · intro hmiss
    rw [resumeStrategy, hmiss]
  · intro st hhit
    have hres : resumeStrategy host e freshToken paused resumeToken
        additionalParams =
        executeFromState host e freshToken (jsDelete paused resumeToken)
          { st with collectedParameters := jsSet st.collectedParameters st.currentIndex additionalParams } := by
      rw [resumeStrategy, hhit]
    refine ⟨hres, jsGet_jsDelete_self paused resumeToken, ?_, ?_⟩
    · intro hne
      rw [hres, executeFromState]
      rcases execLoop_paused_table host e freshToken
        (jsDelete paused resumeToken) _
        { st with collectedParameters := jsSet st.collectedParameters st.currentIndex additionalParams }
        with hsame | ⟨st', hset⟩
      · rw [hsame]
        exact jsGet_jsDelete_self paused resumeToken
      · rw [hset, jsGet_jsSet_ne _ _ _ _ (fun hh => hne hh.symm)]
        exact jsGet_jsDelete_self paused resumeToken
    · intro i ref ps hev
      rw [hres, executeFromState] at hev
      exact execLoop_step_events_ge host e freshToken
        (jsDelete paused resumeToken) _
        { st with collectedParameters := jsSet st.collectedParameters st.currentIndex additionalParams }
        i ref ps hev

/-- Witness for C3 (amended) at concrete inputs: an unknown token is
rejected without touching the table, and the valid-token resume of the
checkout scenario consumes its token. -/
theorem resume_replaces_collected_and_consumes_token_witness :
    resumeStrategy anyHost checkoutEngine "t9" pauseRunOne.2.2 "nope"
      [("a", .vStr "1")] =
      (invalidResumeTokenResult, [], pauseRunOne.2.2) ∧
    resumeStrategy anyHost checkoutEngine "t2" pauseRunOne.2.2 "t1"
      [("a", .vStr "1")] =
      executeFromState anyHost checkoutEngine "t2"
        (jsDelete pauseRunOne.2.2 "t1")
        { checkoutState with collectedParameters := jsSet checkoutState.collectedParameters 0 [("a", .vStr "1")] } ∧
    jsGet pauseRunTwo.2.2 "t1" = none := by
  have hmiss := (resume_replaces_collected_and_consumes_token anyHost
    checkoutEngine "t9" pauseRunOne.2.2 "nope" [("a", .vStr "1")]).1 rfl
  have hhit := (resume_replaces_collected_and_consumes_token anyHost
    checkoutEngine "t2" pauseRunOne.2.2 "t1" [("a", .vStr "1")]).2
    checkoutState rfl
  exact ⟨hmiss, hhit.1, hhit.2.2.1 (by decide)⟩

/-- The undo execution the rollback walk performs for one ledger entry:
the undo-capability id with the original step's parameters, dispatched
through the engine under the accumulated context. -/
def undoExecOf (host : Host) (e : Engine) (ctx : ObjMap)
    (step : ExecutedStep) (u : String) :
    ExecutionResult × List (String × ObjMap) :=
  engineExecute host e ⟨u, step.intent.parameters⟩ ⟨none, some ctx⟩

/-- The rollback error recorded for a step with no undo capability. -/
def noUndoMsg (step : ExecutedStep) : String :=
  "Cannot undo \"" ++ step.capability.id ++ "\" - no undoHandler defined"

/-- The rollback error recorded for a failing undo execution. -/
def failUndoMsg (host : Host) (e : Engine) (ctx : ObjMap)
    (step : ExecutedStep) (u : String) : String :=
  "Failed to undo \"" ++ step.capability.id ++ "\": " ++
    jsOrElse ((undoExecOf host e ctx step u).1.error.map
      (fun x => x.message)) "Unknown error"

/-- The rollback errors one ledger entry contributes, as a function of its
(truthiness-filtered) undo-capability id. -/
def stepRollbackErrs (host : Host) (e : Engine) (ctx : ObjMap)
    (step : ExecutedStep) : Option String → List String
  | none => [noUndoMsg step]
  | some u =>
      if (undoExecOf host e ctx step u).1.success then []
      else [failUndoMsg host e ctx step u]

/-- The undo dispatches one ledger entry contributes. -/
def stepRollbackEvs (host : Host) (e : Engine) (ctx : ObjMap)
    (step : ExecutedStep) : Option String → List TraceEv
  | none => []
  | some u =>
      (undoExecOf host e ctx step u).2.map (fun p => TraceEv.undo p.1 p.2)

/-- A ledger entry over which the rollback walk continues: no truthy undo
id (an error is recorded), or an undo execution that succeeds. -/
def rollbackContinues (host : Host) (e : Engine) (ctx : ObjMap)
    (step : ExecutedStep) : Prop :=
  undoIdTruthy step.capability.undoCapabilityId = none ∨
  ∃ u, undoIdTruthy step.capability.undoCapabilityId = some u ∧
    (undoExecOf host e ctx step u).1.success = true

/-- A ledger entry at which the rollback walk stops: a declared undo whose
execution fails. -/
def rollbackStops (host : Host) (e : Engine) (ctx : ObjMap)
    (step : ExecutedStep) : Prop :=
  ∃ u, undoIdTruthy step.capability.undoCapabilityId = some u ∧
    (undoExecOf host e ctx step u).1.success = false

theorem rollbackWalk_cons_continue (host : Host) (e : Engine) (ctx : ObjMap)
    (s : ExecutedStep) (older : List ExecutedStep)
    (h : rollbackContinues host e ctx s) :
    rollbackWalk host e ctx (s :: older) =
      (stepRollbackErrs host e ctx s
          (undoIdTruthy s.capability.undoCapabilityId) ++
        (rollbackWalk host e ctx older).1,
       stepRollbackEvs host e ctx s
          (undoIdTruthy s.capability.undoCapabilityId) ++
        (rollbackWalk host e ctx older).2) := by
  simp only [rollbackWalk]
  split
  case _ heq =>
      rw [heq]
      simp [stepRollbackErrs, stepRollbackEvs, noUndoMsg]
  case _ u heq =>
      rcases h with hnone | ⟨u', hu', hs⟩
      · rw [heq] at hnone
        exact Option.noConfusion hnone
      · rw [heq] at hu'
        obtain rfl : u = u' := Option.some.inj hu'
        rw [heq]
        simp only [stepRollbackErrs, stepRollbackEvs]
        rw [if_pos (show (engineExecute host e ⟨u, s.intent.parameters⟩
              ⟨none, some ctx⟩).1.success = true from hs),
          if_pos (show (undoExecOf host e ctx s u).1.success = true from hs)]
        simp [undoExecOf]

theorem rollbackWalk_cons_stop (host : Host) (e : Engine) (ctx : ObjMap)
    (s : ExecutedStep) (older : List ExecutedStep)
    (h : rollbackStops host e ctx s) :
    rollbackWalk host e ctx (s :: older) =
      (stepRollbackErrs host e ctx s
          (undoIdTruthy s.capability.undoCapabilityId),
       stepRollbackEvs host e ctx s
          (undoIdTruthy s.capability.undoCapabilityId)) := by
  obtain ⟨u, hu, hf⟩ := h
  simp only [rollbackWalk]
  split
  case _ heq =>
      rw [heq] at hu
      exact Option.noConfusion hu
  case _ u' heq =>
      rw [heq] at hu
      obtain rfl : u' = u := Option.some.inj hu
      rw [heq]
      simp only [stepRollbackErrs, stepRollbackEvs]
      rw [if_neg (show ¬ (engineExecute host e ⟨u', s.intent.parameters⟩
            ⟨none, some ctx⟩).1.success = true from by
          rw [show (engineExecute host e ⟨u', s.intent.parameters⟩
            ⟨none, some ctx⟩).1.success = false from hf]
          simp),
        if_neg (show ¬ (undoExecOf host e ctx s u').1.success = true from by
          rw [show (undoExecOf host e ctx s u').1.success = false from hf]
          simp)]
      simp [undoExecOf, failUndoMsg]

theorem rollbackWalk_continue_append (host : Host) (e : Engine)
    (ctx : ObjMap) (l rest : List ExecutedStep)
    (h : ∀ s ∈ l, rollbackContinues host e ctx s) :
    rollbackWalk host e ctx (l ++ rest) =
      (l.flatMap (fun s => stepRollbackErrs host e ctx s
          (undoIdTruthy s.capability.undoCapabilityId)) ++
        (rollbackWalk host e ctx rest).1,
       l.flatMap (fun s => stepRollbackEvs host e ctx s
          (undoIdTruthy s.capability.undoCapabilityId)) ++
        (rollbackWalk host e ctx rest).2) := by
  induction l with
  | nil => simp
  | cons s l ih =>
      rw [List.cons_append,
        rollbackWalk_cons_continue host e ctx s (l ++ rest)
          (h s (by simp)),
        ih (fun q hq => h q (by simp [hq]))]
      simp

/-- Claim C2: in a transactional run that fails with a non-empty
executed-step ledger, rollback walks the ledger newest-first (the reversed
ledger): every entry before the first failing undo contributes its error
(no-undo entries record an error and the walk continues) and its undo
dispatch, the first failing undo records its error, and everything older
is left untouched — it contributes neither errors nor undo dispatches; if
no undo fails, the whole reversed ledger is processed. -/
theorem rollback_reverse_order_halts (host : Host) (e : Engine)
    (state : ExecutionState) (code message : String)
    (ht : state.options.transactional = true)
    (hn : state.executedSteps ≠ []) :
    (∀ (cont : List ExecutedStep) (stop : ExecutedStep)
        (older : List ExecutedStep),
      state.executedSteps.reverse = cont ++ stop :: older →
      (∀ s ∈ cont, rollbackContinues host e state.accumulatedContext s) →
      rollbackStops host e state.accumulatedContext stop →
      handleFailureWithRollback host e state code message =
        (⟨false, state.results,
          some ⟨code, message, some state.currentIndex⟩, false, none, none,
          (state.results.filter (fun r => r.success)).length, true,
          some (cont.flatMap (fun s =>
              stepRollbackErrs host e state.accumulatedContext s
                (undoIdTruthy s.capability.undoCapabilityId)) ++
            stepRollbackErrs host e state.accumulatedContext stop
              (undoIdTruthy stop.capability.undoCapabilityId))⟩,
         cont.flatMap (fun s =>
             stepRollbackEvs host e state.accumulatedContext s
               (undoIdTruthy s.capability.undoCapabilityId)) ++
           stepRollbackEvs host e state.accumulatedContext stop
             (undoIdTruthy stop.capability.undoCapabilityId))) ∧
    ((∀ s ∈ state.executedSteps.reverse,
        rollbackContinues host e state.accumulatedContext s) →
      handleFailureWithRollback host e state code message =
        (⟨false, state.results,
          some ⟨code, message, some state.currentIndex⟩, false, none, none,
          (state.results.filter (fun r => r.success)).length, true,
          some (state.executedSteps.reverse.flatMap (fun s =>
            stepRollbackErrs host e state.accumulatedContext s
              (undoIdTruthy s.capability.undoCapabilityId)))⟩,
         state.executedSteps.reverse.flatMap (fun s =>
           stepRollbackEvs host e state.accumulatedContext s
             (undoIdTruthy s.capability.undoCapabilityId)))) := by
  have hcond : ¬ (state.options.transactional = false ∨
      state.executedSteps.isEmpty = true) := by
    rintro (hf | hie)
    · rw [ht] at hf
      exact Bool.noConfusion hf
    · exact hn (List.isEmpty_iff.mp hie)
  constructor
  · intro cont stop older hdecomp hcont hstop
    rw [handleFailureWithRollback, if_neg hcond]
    rw [hdecomp,
      rollbackWalk_continue_append host e state.accumulatedContext cont
        (stop :: older) hcont,
      rollbackWalk_cons_stop host e state.accumulatedContext stop older
        hstop]
  · intro hall
    rw [handleFailureWithRollback, if_neg hcond]
    have := rollbackWalk_continue_append host e state.accumulatedContext
      state.executedSteps.reverse [] hall
    rw [List.append_nil] at this
    rw [this]
    simp [rollbackWalk]

/-- Working undo capability of the rollback witness. -/
def removeOkCap : Capability :=
  ⟨"removeOk", "Remove", "removes an item from the cart", none,
    ⟨"removeOk", "h.removeOk"⟩, [], none, none, none⟩

/-- Failing undo capability of the rollback witness. -/
def removeBadCap : Capability :=
  ⟨"removeBad", "Remove (broken)", "removes an item but fails", none,
    ⟨"removeBad", "h.removeBad"⟩, [], none, none, none⟩

/-- A capability whose undo works. -/
def addOkCap : Capability :=
  ⟨"addOk", "Add", "adds an item to the cart", none, ⟨"addOk", "h.addOk"⟩,
    [], none, none, some "removeOk"⟩

/-- A capability whose undo fails. -/
def addBadCap : Capability :=
  ⟨"addBad", "Add (bad undo)", "adds an item; undo fails", none,
    ⟨"addBad", "h.addBad"⟩, [], none, none, some "removeBad"⟩

/-- A capability with no declared undo. -/
def logEventCap : Capability :=
  ⟨"logEvent", "Log", "logs an event", none, ⟨"logEvent", "h.logEvent"⟩,
    [], none, none, none⟩

/-- The manifest of the rollback witness. -/
def rbManifest : Manifest :=
  ⟨"1.0.0", ⟨"Demo", "demo application"⟩,
    [("addOk", addOkCap), ("removeOk", removeOkCap),
     ("addBad", addBadCap), ("removeBad", removeBadCap),
     ("logEvent", logEventCap)]⟩

/-- The engine of the rollback witness; `h.removeBad` throws. -/
def rbEngine : Engine :=
  ⟨rbManifest,
    [("h.addOk", fun _ => .completes (.vObj [])),
     ("h.removeOk", fun _ => .completes (.vObj [])),
     ("h.addBad", fun _ => .completes (.vObj [])),
     ("h.removeBad", fun _ => .throwsError "boom"),
     ("h.logEvent", fun _ => .completes (.vObj []))], []⟩

/-- A generic successful step result for the ledger entries. -/
def okStepResult : ExecutionResult := ⟨true, some (.vObj []), none, some []⟩

/-- Oldest ledger entry: its undo would succeed, but the walk must never
reach it. -/
def rbStepOld : ExecutedStep :=
  ⟨⟨"addOk", [("itemId", .vStr "1")]⟩, okStepResult, addOkCap⟩

/-- Middle ledger entry: its undo fails, stopping the walk. -/
def rbStepMid : ExecutedStep :=
  ⟨⟨"addBad", [("itemId", .vStr "2")]⟩, okStepResult, addBadCap⟩

/-- Newest ledger entry: no undo declared, so the walk records an error
and continues. -/
def rbStepNew : ExecutedStep :=
  ⟨⟨"logEvent", []⟩, okStepResult, logEventCap⟩

/-- The failing transactional state of the rollback witness. -/
def rbState : ExecutionState :=
  ⟨[], 2, [okStepResult, okStepResult, okStepResult], [], [],
    [rbStepOld, rbStepMid, rbStepNew], ⟨none, none, true, false⟩⟩

/-- Witness for C2 at a concrete input: the walk processes the reversed
ledger, records the no-undo error for the newest step, executes and fails
the middle step's undo with the original parameters, and never touches the
oldest step — exactly one undo dispatch happens. -/
theorem rollback_reverse_order_halts_witness :
    handleFailureWithRollback anyHost rbEngine rbState "EXECUTION_ERROR"
      "Payment declined" =
      (⟨false, rbState.results,
        some ⟨"EXECUTION_ERROR", "Payment declined", some 2⟩, false, none,
        none, 3, true,
        some ["Cannot undo \"logEvent\" - no undoHandler defined",
          "Failed to undo \"addBad\": boom"]⟩,
       [TraceEv.undo "h.removeBad" [("itemId", .vStr "2")]]) := by
  have h := (rollback_reverse_order_halts anyHost rbEngine rbState
    "EXECUTION_ERROR" "Payment declined" rfl
    (fun hh => List.noConfusion hh)).1 [rbStepNew] rbStepMid [rbStepOld]
    rfl
    (fun s hs => by
      rw [List.mem_singleton.mp hs]
      exact Or.inl rfl)
    ⟨"removeBad", rfl, rfl⟩
  rw [h]
  rfl

end Aument
